import Mathlib

/-!
Verification of the match-3 puzzle core of the AddictiveGame repository.

Shallow embedding of:
  - js/puzzle/Tile.js                         (class Tile)
  - app/src/main/assets/js/puzzle/Board.js    (class Board)
  - app/src/main/assets/js/puzzle/PowerUps.js (class PowerUps)
  - js/puzzle/PuzzleEngine.js                 (class PuzzleEngine)

Conventions of the embedding:
  - JS numbers used as grid coordinates are modelled as `Int` (the JS code
    computes `row - 1` etc., which can be negative); loop counters that
    range over `0 .. width-1` are `Nat` and are coerced where needed.
  - `Math.random()` driven choices are modelled by an explicit stream of
    natural numbers (`List Nat`); a pick of `Math.floor(random * n)` consumes
    one stream element `r` and uses `r % n`.  Every concrete counterexample
    or witness fixes the stream explicitly.
  - `Tile.generateId` produces a random unique string; tile identity is
    modelled by a `Nat` field `id` (fresh tiles created by the board use 0;
    no verified property depends on the ids of freshly created tiles).
  - The `visited` set built by `Board.findMatches` is dead code in the
    source (it is written, never read) and is omitted.
  - `setTimeout` sequencing inside `processMatches` / power-up execution is
    collapsed to synchronous sequential execution, which is the order the
    callbacks run in.
-/

namespace Match3

/-- Embedding of `class Tile` (js/puzzle/Tile.js).  Only the fields that the
game logic reads are kept; purely visual/animation fields are dropped. -/
structure Tile where
  type : String
  col : Int
  row : Int
  id : Nat
  isSpecial : Bool
  specialType : Option String
  isMatched : Bool
  power : Int
  deriving DecidableEq, Repr

/-- `new Tile(type, col, row)` with the constructor's defaults
(`isSpecial = false`, `specialType = null`, `isMatched = false`, `power = 1`). -/
def mkTile (ty : String) (col row : Int) (id : Nat := 0) : Tile :=
  { type := ty, col := col, row := row, id := id,
    isSpecial := false, specialType := none, isMatched := false, power := 1 }

/-- `Tile.getSpecialPower` (js/puzzle/Tile.js). -/
def getSpecialPower (specialType : String) : Int :=
  if specialType = "bomb" then 3
  else if specialType = "line_horizontal" then 2
  else if specialType = "line_vertical" then 2
  else if specialType = "color_bomb" then 5
  else 1

/-- `Tile.makeSpecial(specialType)` (js/puzzle/Tile.js). -/
def Tile.makeSpecial (t : Tile) (specialType : String) : Tile :=
  { t with isSpecial := true, specialType := some specialType,
           power := getSpecialPower specialType }

/-- `Tile.canMatch(other)` (js/puzzle/Tile.js lines 207-209):
`other && this.type === other.type && !this.isMatched && !other.isMatched`.
Note the source does NOT consult `isSpecial`. -/
def Tile.canMatch (t : Tile) (other : Option Tile) : Bool :=
  match other with
  | none => false
  | some o => t.type == o.type && !t.isMatched && !o.isMatched

/-- Embedding of `class Board` (app/src/main/assets/js/puzzle/Board.js).
The `tiles[row][col]` array of nullable tiles is a function from (row, col)
to `Option Tile`; out-of-range reads of the JS array yield `undefined`,
which the bounds checks in `getTile`/`setTile` make unobservable. -/
structure Board where
  width : Nat
  height : Nat
  tileTypes : List String
  tiles : Int → Int → Option Tile

/-- `Board.getTile(col, row)` (Board.js lines 113-118). -/
def Board.getTile (b : Board) (col row : Int) : Option Tile :=
  if col < 0 ∨ (b.width : Int) ≤ col ∨ row < 0 ∨ (b.height : Int) ≤ row then none
  else b.tiles row col

/-- `Board.setTile(col, row, tile)` (Board.js lines 120-129); when a tile is
stored its `col`/`row` fields are updated to the destination cell. -/
def Board.setTile (b : Board) (col row : Int) (t : Option Tile) : Board :=
  if col < 0 ∨ (b.width : Int) ≤ col ∨ row < 0 ∨ (b.height : Int) ≤ row then b
  else { b with tiles := fun r c =>
    if r = row ∧ c = col then t.map (fun tile => { tile with col := col, row := row })
    else b.tiles r c }

/-- Direct assignment `this.tiles[tile.row][tile.col] = newTile` as performed
by `Board.removeInitialMatches` (Board.js line 105), which bypasses
`setTile`'s bounds check and field update. -/
def Board.writeCell (b : Board) (col row : Int) (t : Option Tile) : Board :=
  { b with tiles := fun r c => if r = row ∧ c = col then t else b.tiles r c }

/-- `Board.swapTiles(col1, row1, col2, row2)` (Board.js lines 131-142). -/
def Board.swapTiles (b : Board) (col1 row1 col2 row2 : Int) : Board × Bool :=
  match b.getTile col1 row1, b.getTile col2 row2 with
  | some t1, some t2 =>
      (((b.setTile col1 row1 (some t2)).setTile col2 row2 (some t1)), true)
  | _, _ => (b, false)

/-- In-bounds predicate matching the guard used by `getTile`/`setTile`. -/
def Board.inBounds (b : Board) (col row : Int) : Prop :=
  0 ≤ col ∧ col < (b.width : Int) ∧ 0 ≤ row ∧ row < (b.height : Int)

instance (b : Board) (col row : Int) : Decidable (b.inBounds col row) :=
  inferInstanceAs (Decidable (_ ∧ _ ∧ _ ∧ _))

/-- Embedding of the ad hoc match-group records `{type, tiles, row}` /
`{type, tiles, col}` built by `Board.findMatches`.  The JS field `type`
(holding `'horizontal'` or `'vertical'`) is named `orientation` here to avoid
confusion with tile types, and the `row`/`col` field is named `line`. -/
structure MatchGroup where
  orientation : String
  tiles : List Tile
  line : Nat
  deriving DecidableEq, Repr

/-- The run-tracking loop body shared by the horizontal and the vertical scan
of `Board.findMatches` (Board.js lines 149-218; the two loops are textually
identical up to the scan direction, abstracted here by `get`, the cell lookup
along the line, and by the list of indices still to visit).  State:
`currentMatch`, `currentType`, and the accumulated recorded runs.  An empty
cell (`none`) is passed over by `continue` without touching the run state. -/
def scanLineAux (get : Nat → Option Tile) :
    List Nat → List Tile → Option String → List (List Tile) → List (List Tile)
  | [], currentMatch, _, acc =>
      if 3 ≤ currentMatch.length then acc ++ [currentMatch] else acc
  | i :: rest, currentMatch, currentType, acc =>
      match get i with
      | none => scanLineAux get rest currentMatch currentType acc
      | some tile =>
          if some tile.type = currentType then
            scanLineAux get rest (currentMatch ++ [tile]) currentType acc
          else
            scanLineAux get rest [tile] (some tile.type)
              (if 3 ≤ currentMatch.length then acc ++ [currentMatch] else acc)

/-- `Board.findMatches()` (Board.js lines 144-221): all horizontal runs
(rows scanned top to bottom, cells left to right) followed by all vertical
runs (columns scanned left to right, cells top to bottom). -/
def Board.findMatches (b : Board) : List MatchGroup :=
  ((List.range b.height).flatMap fun row =>
    (scanLineAux (fun col => b.getTile col row) (List.range b.width) [] none []).map
      fun ts => { orientation := "horizontal", tiles := ts, line := row })
  ++ ((List.range b.width).flatMap fun col =>
    (scanLineAux (fun row => b.getTile col row) (List.range b.height) [] none []).map
      fun ts => { orientation := "vertical", tiles := ts, line := col })

/-- `Board.hasMatches()` (Board.js lines 223-225). -/
def Board.hasMatches (b : Board) : Bool :=
  0 < b.findMatches.length

/-- `Board.removeMatches(matches)` (Board.js lines 227-233). -/
def Board.removeMatches (b : Board) (ms : List MatchGroup) : Board :=
  ms.foldl (fun bb m =>
    m.tiles.foldl (fun b2 tile => b2.setTile tile.col tile.row none) bb) b

/-- One column of `Board.dropTiles()` (Board.js lines 235-257): collect the
non-null tiles from bottom to top, clear the column, re-place them from the
bottom row upward. -/
def Board.dropColumn (b : Board) (col : Nat) : Board :=
  let columnTiles :=
    (List.range b.height).reverse.filterMap fun (row : Nat) => b.getTile col row
  let cleared :=
    (List.range b.height).foldl (fun bb (row : Nat) => bb.setTile col row none) b
  columnTiles.enum.foldl
    (fun bb (p : Nat × Tile) => bb.setTile col ((b.height : Int) - 1 - p.1) (some p.2))
    cleared

/-- `Board.dropTiles()` (Board.js lines 235-257), iterating the columns left
to right. -/
def Board.dropTiles (b : Board) : Board :=
  (List.range b.width).foldl (fun bb col => bb.dropColumn col) b

/-- One random pick `availableTypes[Math.floor(Math.random() * len)]`,
consuming one element of the explicit randomness stream. -/
def randPick (types : List String) (rs : List Nat) : String × List Nat :=
  match rs with
  | [] => (types.getD 0 "undefined", [])
  | r :: rest => (types.getD (r % types.length) "undefined", rest)

/-- `Board.getRandomTileType(col, row)` (Board.js lines 64-89): start from a
copy of `tileTypes`; if the two cells to the left exist and share a type,
remove that type; then likewise for the two cells above.  (When a
neighbouring cell is null the JS compares `undefined === undefined` but then
`indexOf(undefined)` is `-1`, so nothing is removed; that is the `_, _`
fall-through.) -/
def Board.getRandomTileType (b : Board) (col row : Int) (rs : List Nat) :
    String × List Nat :=
  let a1 :=
    if 2 ≤ col then
      match b.tiles row (col - 1), b.tiles row (col - 2) with
      | some t1, some t2 =>
          if t1.type = t2.type then b.tileTypes.erase t1.type else b.tileTypes
      | _, _ => b.tileTypes
    else b.tileTypes
  let a2 :=
    if 2 ≤ row then
      match b.tiles (row - 1) col, b.tiles (row - 2) col with
      | some t1, some t2 => if t1.type = t2.type then a1.erase t1.type else a1
      | _, _ => a1
    else a1
  randPick a2 rs

/-- `Board.createRandomTile(col, row)` (Board.js lines 59-62). -/
def Board.createRandomTile (b : Board) (col row : Int) (rs : List Nat) :
    Tile × List Nat :=
  let pick := b.getRandomTileType col row rs
  (mkTile pick.1 col row, pick.2)

/-- `Board.fillEmptySpaces()` (Board.js lines 259-268): columns outer, rows
inner; every empty cell receives a fresh random tile. -/
def Board.fillEmptySpaces (b : Board) (rs : List Nat) : Board × List Nat :=
  (List.range b.width).foldl
    (fun acc (col : Nat) =>
      (List.range b.height).foldl
        (fun (acc2 : Board × List Nat) (row : Nat) =>
          if (acc2.1.getTile col row).isSome then acc2
          else
            let made := acc2.1.createRandomTile col row acc2.2
            (acc2.1.setTile col row (some made.1), made.2))
        acc)
    (b, rs)

/-- The replacement pass of one `removeInitialMatches` iteration
(Board.js lines 101-107): every tile of every match group is overwritten in
place with a fresh random tile. -/
def Board.replaceMatchedTiles (b : Board) (ms : List MatchGroup)
    (rs : List Nat) : Board × List Nat :=
  ms.foldl
    (fun acc m =>
      m.tiles.foldl
        (fun (acc2 : Board × List Nat) tile =>
          let made := acc2.1.createRandomTile tile.col tile.row acc2.2
          (acc2.1.writeCell tile.col tile.row (some made.1), made.2))
        acc)
    (b, rs)

/-- The `while (hasMatches && attempts < maxAttempts)` loop of
`Board.removeInitialMatches` (Board.js lines 91-111), with the remaining
attempt budget as structural fuel. -/
def Board.removeInitialMatchesAux : Nat → Board → List Nat → Board × List Nat
  | 0, b, rs => (b, rs)
  | fuel + 1, b, rs =>
      let ms := b.findMatches
      if ms.isEmpty then (b, rs)
      else
        let rep := b.replaceMatchedTiles ms rs
        Board.removeInitialMatchesAux fuel rep.1 rep.2

/-- `Board.removeInitialMatches()` with its `maxAttempts = 100`. -/
def Board.removeInitialMatches (b : Board) (rs : List Nat) : Board × List Nat :=
  Board.removeInitialMatchesAux 100 b rs

/-- The tile-collection pass of `Board.shuffle()` (Board.js lines 424-433):
rows outer, columns inner, occupied cells only. -/
def Board.collectTiles (b : Board) : List Tile :=
  (List.range b.height).flatMap fun row =>
    (List.range b.width).filterMap fun (col : Nat) => b.getTile col row

/-- The destructuring swap `[allTiles[i], allTiles[j]] = [allTiles[j],
allTiles[i]]` of the Fisher-Yates pass in `Board.shuffle()`. -/
def swapAt (l : List Tile) (i j : Nat) : List Tile :=
  (l.set i (l.getD j (mkTile "undefined" 0 0))).set j (l.getD i (mkTile "undefined" 0 0))

/-- The Fisher-Yates pass of `Board.shuffle()` (Board.js lines 435-439):
`for (i = length-1; i > 0; i--) { j = floor(random * (i+1)); swap i j }`. -/
def fisherYates (l : List Tile) (rs : List Nat) : List Tile × List Nat :=
  ((List.range l.length).reverse.dropLast).foldl
    (fun (acc : List Tile × List Nat) i =>
      match acc.2 with
      | [] => (swapAt acc.1 i 0, [])
      | r :: rest => (swapAt acc.1 i (r % (i + 1)), rest))
    (l, rs)

/-- The row-major cell order `(col, row)` used by the shuffle placement loop
(rows outer, columns inner). -/
def allPositions (w h : Nat) : List (Nat × Nat) :=
  (List.range h).flatMap fun row => (List.range w).map fun col => (col, row)

/-- The placement pass of `Board.shuffle()` (Board.js lines 441-450): walk
the cells row-major; each occupied cell receives the next shuffled tile via
`setTile`.  (If the tile list runs out, `allTiles[tileIndex]` is `undefined`
and `setTile(col, row, undefined)` empties the cell; unreachable in practice
because exactly one tile was collected per occupied cell.) -/
def Board.placeShuffledAux : List (Nat × Nat) → Board → List Tile → Board
  | [], b, _ => b
  | (col, row) :: ps, b, ts =>
      if (b.getTile col row).isSome then
        match ts with
        | [] => Board.placeShuffledAux ps (b.setTile col row none) []
        | t :: ts' => Board.placeShuffledAux ps (b.setTile col row (some t)) ts'
      else Board.placeShuffledAux ps b ts

/-- The permutation phase of `Board.shuffle()`: collect, Fisher-Yates, place.
Split out so that theorems can speak about the board state just before the
final `removeInitialMatches()` call. -/
def Board.permutePhase (b : Board) (rs : List Nat) : Board × List Nat :=
  let shuffled := fisherYates b.collectTiles rs
  (Board.placeShuffledAux (allPositions b.width b.height) b shuffled.1, shuffled.2)

/-- `Board.shuffle()` (Board.js lines 423-454). -/
def Board.shuffle (b : Board) (rs : List Nat) : Board × List Nat :=
  let p := b.permutePhase rs
  p.1.removeInitialMatches p.2

/-- Observer: the row-major list of tile types of the occupied cells.  Two
boards carry the same multiset of tile types iff these lists are
permutations of each other. -/
def Board.typesList (b : Board) : List String :=
  (allPositions b.width b.height).filterMap fun (p : Nat × Nat) =>
    (b.getTile p.1 p.2).map Tile.type

/-- The session state owned by `class PuzzleEngine` (js/puzzle/PuzzleEngine.js):
the board plus `movesLeft`, `score`, `comboCount` and `objectives`.  The JS
`objectives` object maps tile-type strings to numbers; a type absent from the
object reads as `undefined`, modelled by `none`. -/
structure EngineState where
  board : Board
  movesLeft : Int
  score : Int
  comboCount : Int
  objectives : String → Option Int

/-- `PuzzleEngine.updateObjectives(matches)` (PuzzleEngine.js lines 259-267):
for each matched tile, `if (objectives[tile.type] > 0) objectives[tile.type]--`. -/
def updateObjectives (obj : String → Option Int) (ms : List MatchGroup) :
    String → Option Int :=
  ms.foldl
    (fun o m =>
      m.tiles.foldl
        (fun o2 tile =>
          match o2 tile.type with
          | some v =>
              if 0 < v then fun ty => if ty = tile.type then some (v - 1) else o2 ty
              else o2
          | none => o2)
        o)
    obj

/-- The cascade loop of `PuzzleEngine.processMatches()` (PuzzleEngine.js lines
218-257) with its `setTimeout` chaining collapsed to sequential execution:
while matches exist, add `matches.length * 100 + comboCount * 50` to the
score, bump the combo counter, update objectives, remove the matched tiles,
drop, refill, and rescan (`checkMatches`).  The loop is not structurally
terminating (refill may recreate matches), so it carries explicit fuel; the
returned `Nat` counts the iterations that processed a non-empty match list. -/
def processMatchesAux : Nat → EngineState → List Nat → EngineState × List Nat × Nat
  | 0, s, rs => (s, rs, 0)
  | fuel + 1, s, rs =>
      let ms := s.board.findMatches
      if ms.isEmpty then (s, rs, 0)
      else
        let totalScore : Int := (ms.length : Int) * 100 + s.comboCount * 50
        let s1 : EngineState :=
          { s with score := s.score + totalScore, comboCount := s.comboCount + 1,
                   objectives := updateObjectives s.objectives ms }
        let b1 := s1.board.removeMatches ms
        let b2 := b1.dropTiles
        let fill := b2.fillEmptySpaces rs
        let res := processMatchesAux fuel { s1 with board := fill.1 } fill.2
        (res.1, res.2.1, res.2.2 + 1)

/-- `PuzzleEngine.swapTiles(pos1, pos2)` (PuzzleEngine.js lines 191-209):
no-op when the move budget is exhausted; otherwise swap on the board, and if
the swap yields matches decrement `movesLeft` and run the cascade, else swap
back.  Positions are `(col, row)` pairs. -/
def engineSwapTiles (fuel : Nat) (s : EngineState) (pos1 pos2 : Int × Int)
    (rs : List Nat) : EngineState × List Nat × Nat :=
  if s.movesLeft ≤ 0 then (s, rs, 0)
  else
    let b1 := (s.board.swapTiles pos1.1 pos1.2 pos2.1 pos2.2).1
    if b1.hasMatches then
      processMatchesAux fuel { s with board := b1, movesLeft := s.movesLeft - 1 } rs
    else
      let b2 := (b1.swapTiles pos2.1 pos2.2 pos1.1 pos1.2).1
      ({ s with board := b2 }, rs, 0)

/-- The objectives update used by the power-up executors
(PowerUps.js lines 196-199, 229-232): `if (objectives[type]) objectives[type]
= Math.max(0, objectives[type] - 1)`; JS truthiness makes `undefined` and `0`
skip the update. -/
def powerUpObjectiveHit (obj : String → Option Int) (ty : String) :
    String → Option Int :=
  match obj ty with
  | some v =>
      if v ≠ 0 then fun t => if t = ty then some (max 0 (v - 1)) else obj t
      else obj
  | none => obj

/-- `PowerUps.executeHammer(col, row)` (PowerUps.js lines 188-208), board and
engine-session effects only (inventory and UI omitted): the cell is cleared
FIRST, then the tile is re-read from the now-empty cell for the objectives
update, then (after the timeout) the board drops and refills. -/
def executeHammer (s : EngineState) (col row : Int) (rs : List Nat) :
    EngineState × List Nat :=
  let b1 := s.board.setTile col row none
  let tile := b1.getTile col row
  let obj' :=
    match tile with
    | some t => powerUpObjectiveHit s.objectives t.type
    | none => s.objectives
  let b2 := b1.dropTiles
  let fill := b2.fillEmptySpaces rs
  ({ s with board := fill.1, objectives := obj' }, fill.2)

/-- The `tilesToRemove` collection loop of `PowerUps.executeBomb(col, row)`
(PowerUps.js lines 213-223): the occupied cells of the 3x3 neighbourhood of
`(col, row)`, rows outer, columns inner, each as `(tile, col, row)`. -/
def bombTargets (b : Board) (col row : Int) : List (Tile × Int × Int) :=
  [row - 1, row, row + 1].flatMap fun r =>
    [col - 1, col, col + 1].filterMap fun c =>
      (b.getTile c r).map fun t => (t, c, r)

/-- The synchronous part of `PowerUps.executeBomb(col, row)` (PowerUps.js
lines 210-237): collect the occupied cells of the 3x3 neighbourhood, clear
them, decrement the objectives per removed tile, and add
`tilesToRemove.length * 50` to the score.  The drop/refill scheduled by the
trailing `setTimeout` is `executeBomb` below. -/
def executeBombRemove (s : EngineState) (col row : Int) : EngineState :=
  let tilesToRemove := bombTargets s.board col row
  let b1 := tilesToRemove.foldl (fun bb p => bb.setTile p.2.1 p.2.2 none) s.board
  let obj' := tilesToRemove.foldl (fun o p => powerUpObjectiveHit o p.1.type) s.objectives
  { s with board := b1, objectives := obj',
           score := s.score + (tilesToRemove.length : Int) * 50 }

/-- `PowerUps.executeBomb` including the delayed drop and refill. -/
def executeBomb (s : EngineState) (col row : Int) (rs : List Nat) :
    EngineState × List Nat :=
  let s1 := executeBombRemove s col row
  let b2 := s1.board.dropTiles
  let fill := b2.fillEmptySpaces rs
  ({ s1 with board := fill.1 }, fill.2)

/-- Build a concrete board from a row-major list of rows of optional tile
types; the stored tiles get the coordinates of their cells, as `initialize` /
`fillBoard` produce. -/
def boardOfRows (tileTypes : List String) (rows : List (List (Option String))) :
    Board :=
  { width := (rows.headD []).length
    height := rows.length
    tileTypes := tileTypes
    tiles := fun r c =>
      if 0 ≤ r ∧ 0 ≤ c then
        ((rows.getD r.toNat []).getD c.toNat none).map fun ty =>
          mkTile ty c r
      else none }

/-- Invariant maintained by `setTile`: every stored tile's `col`/`row` fields
name the cell that holds it. -/
def Board.WellFormed (b : Board) : Prop :=
  ∀ col row t, b.getTile col row = some t → t.col = col ∧ t.row = row

/-- Bounded boolean version of `Board.WellFormed` for concrete boards. -/
def Board.wfCheck (b : Board) : Bool :=
  (List.range b.height).all fun row =>
    (List.range b.width).all fun col =>
      match b.getTile col row with
      | some t => decide (t.col = (col : Int)) && decide (t.row = (row : Int))
      | none => true

/-- Every cell inside the rectangle is occupied. -/
def Board.Full (b : Board) : Prop :=
  ∀ col row : Int, b.inBounds col row → (b.getTile col row).isSome

/-- Bounded boolean version of `Board.Full` for concrete boards. -/
def Board.fullCheck (b : Board) : Bool :=
  (List.range b.height).all fun row =>
    (List.range b.width).all fun col => (b.getTile col row).isSome

/-- `PuzzleEngine.canSwapTiles(pos1, pos2)` (PuzzleEngine.js lines 183-189):
rook adjacency, `(dx === 1 && dy === 0) || (dx === 0 && dy === 1)`. -/
def canSwapTiles (pos1 pos2 : Int × Int) : Bool :=
  ((pos1.1 - pos2.1).natAbs = 1 && (pos1.2 - pos2.2).natAbs = 0) ||
  ((pos1.1 - pos2.1).natAbs = 0 && (pos1.2 - pos2.2).natAbs = 1)

/-- The tiles of a column read bottom-to-top, as collected by `dropTiles`. -/
def Board.colTiles (b : Board) (col : Nat) : List Tile :=
  (List.range b.height).reverse.filterMap fun (row : Nat) => b.getTile col row

/-- Observer: the types of the occupied cells among a given list of cell
positions, in order. -/
def typesAt (b : Board) (ps : List (Nat × Nat)) : List String :=
  ps.filterMap fun (p : Nat × Nat) => (b.getTile p.1 p.2).map Tile.type

/-- `RunEnd get ty ts i`: along the line read by `get`, the tiles `ts` form a
run of type `ty` in strictly increasing cell order whose last tile sits at
index `i`, with nothing but empty cells strictly between consecutive members.
This is the shape of the `currentMatch` list maintained by `findMatches`'s
scan (empty cells are skipped by `continue`, so they do not break the run). -/
inductive RunEnd (get : Nat → Option Tile) (ty : String) : List Tile → Nat → Prop where
  | single (i : Nat) (t : Tile) (hget : get i = some t) (hty : t.type = ty) :
      RunEnd get ty [t] i
  | snoc (ts : List Tile) (i j : Nat) (t : Tile) (prev : RunEnd get ty ts i)
      (hij : i < j) (hgap : ∀ m, i < m → m < j → get m = none)
      (hget : get j = some t) (hty : t.type = ty) : RunEnd get ty (ts ++ [t]) j

/-- Invariant of the scan state `(currentMatch, currentType)` when the scan
is about to examine index `k`. -/
def ScanInv (get : Nat → Option Tile) (cm : List Tile) (ct : Option String)
    (k : Nat) : Prop :=
  (cm = [] ∧ ct = none) ∨
  (∃ ty i, ct = some ty ∧ RunEnd get ty cm i ∧ i < k ∧
    ∀ m, i < m → m < k → get m = none)

/-- A run the scan has recorded: length at least 3 and of `RunEnd` shape. -/
def ClosedRun (get : Nat → Option Tile) (r : List Tile) : Prop :=
  3 ≤ r.length ∧ ∃ ty i, RunEnd get ty r i

/-- Concrete 3x3 board whose `(1,0)`-`(1,1)` swap creates exactly one
horizontal 3-tile red match on row 0. -/
def swapBoard : Board :=
  boardOfRows ["red", "green", "blue", "yellow"]
    [[some "red", some "blue", some "red"],
     [some "green", some "red", some "green"],
     [some "blue", some "green", some "blue"]]

/-- Engine session on `swapBoard` with `comboCount = 0`. -/
def swapState0 : EngineState :=
  { board := swapBoard, movesLeft := 5, score := 0, comboCount := 0,
    objectives := fun _ => none }

/-- Engine session on `swapBoard` with a leftover `comboCount = 2` from an
earlier cascade. -/
def swapState2 : EngineState :=
  { board := swapBoard, movesLeft := 5, score := 0, comboCount := 2,
    objectives := fun _ => none }

/-- Refill stream for the `swapBoard` scenarios: the three refilled cells of
row 0 become yellow, yellow, red, which creates no further match. -/
def swapStream : List Nat := [3, 3, 0]

/-- Objectives map `{red: 5}`. -/
def redObjectives : String → Option Int :=
  fun ty => if ty = "red" then some 5 else none

/-- Engine session for the power-up scenarios: `swapBoard` with `{red: 5}`
objectives. -/
def hammerState : EngineState :=
  { board := swapBoard, movesLeft := 5, score := 0, comboCount := 0,
    objectives := redObjectives }

/-- A red tile at `(1,0)` turned into a bomb special. -/
def specialRedTile : Tile := (mkTile "red" 1 0).makeSpecial "bomb"

/-- A 3x1 row of reds whose middle tile is the special `specialRedTile`. -/
def specialBoard : Board :=
  (boardOfRows ["red", "blue", "green"]
    [[some "red", some "red", some "red"]]).writeCell 1 0 (some specialRedTile)

/-- A 3x1 row of reds (shuffle counterexample input). -/
def shuffleBoard : Board :=
  boardOfRows ["red", "blue", "green"] [[some "red", some "red", some "red"]]

/-- Randomness stream for the shuffle counterexample: the Fisher-Yates pass
leaves the all-red row in place, then the match-clearing pass rolls blue,
blue, green. -/
def shuffleStream : List Nat := [0, 0, 1, 1, 1]

/-- A quiescent 3x1 row red-green-red (shuffle witness input); the stream
`[0, 0]` permutes it to green-red-red, which still has no match. -/
def shuffleWitnessBoard : Board :=
  boardOfRows ["red", "blue", "green"] [[some "red", some "green", some "red"]]

/-- A 1-wide, 4-tall column red, red, red, blue: with the right refill rolls
the cascade recreates a vertical match forever. -/
def cascadeBoard : Board :=
  boardOfRows ["red", "blue", "green"]
    [[some "red"], [some "red"], [some "red"], [some "blue"]]

/-- Engine session on `cascadeBoard`. -/
def cascadeState : EngineState :=
  { board := cascadeBoard, movesLeft := 10, score := 0, comboCount := 0,
    objectives := fun _ => none }

/-- Refill stream that keeps the `cascadeBoard` cascade alive for five
iterations (three refill rolls per iteration). -/
def cascadeStream : List Nat := [2, 1, 1, 0, 2, 2, 2, 0, 0, 0, 2, 2, 2, 0, 0]

/-- A 4x1 row red, red, empty, red: `findMatches` records the three reds as
one horizontal group even though an empty cell separates them. -/
def gapBoard : Board :=
  boardOfRows ["red", "blue", "green"]
    [[some "red", some "red", none, some "red"]]

/-- Placeholder tile used as the default of list lookups that are always in
range (mirrors JS indexing, which cannot fail but would yield `undefined`). -/
def dummyTile : Tile := mkTile "undefined" 0 0

/-- Executable statement of the claim "the tiles of a MatchGroup occupy
contiguous cells": consecutive recorded tiles sit on consecutive columns. -/
def contiguousCols : List Tile → Bool
  | [] => true
  | [_] => true
  | a :: a' :: rest => (a'.col == a.col + 1) && contiguousCols (a' :: rest)

/-- A fully occupied 2x2 board with no possible match (used for the revert
round-trip witness). -/
def revertBoard : Board :=
  boardOfRows ["red", "green"]
    [[some "red", some "green"], [some "green", some "red"]]

/-- Engine session on `revertBoard`. -/
def revertState : EngineState :=
  { board := revertBoard, movesLeft := 5, score := 0, comboCount := 0,
    objectives := fun _ => none }

/-- A single-column board with a hole: red, empty, green (gravity witness). -/
def gravityBoard : Board :=
  boardOfRows ["red", "blue", "green"]
    [[some "red"], [none], [some "green"]]

theorem getTile_eq_none_of_not_inBounds (b : Board) (col row : Int)
    (h : ¬ b.inBounds col row) : b.getTile col row = none := by
  unfold Board.getTile
  rw [if_pos]
  unfold Board.inBounds at h
  omega

theorem setTile_eq_self_of_not_inBounds (b : Board) (col row : Int) (t : Option Tile)
    (h : ¬ b.inBounds col row) : b.setTile col row t = b := by
  unfold Board.setTile
  rw [if_pos]
  unfold Board.inBounds at h
  omega

theorem inBounds_of_getTile_isSome {b : Board} {col row : Int}
    (h : (b.getTile col row).isSome) : b.inBounds col row := by
  by_contra hn
  rw [getTile_eq_none_of_not_inBounds b col row hn] at h
  simp at h

theorem getTile_setTile_same (b : Board) (col row : Int) (t : Option Tile)
    (h : b.inBounds col row) :
    (b.setTile col row t).getTile col row
      = t.map (fun tile => { tile with col := col, row := row }) := by
  obtain ⟨h1, h2, h3, h4⟩ := h
  unfold Board.setTile
  rw [if_neg (by omega)]
  unfold Board.getTile
  dsimp only
  rw [if_neg (by omega)]
  simp

theorem getTile_setTile_ne (b : Board) (col row c r : Int) (t : Option Tile)
    (h : ¬ (c = col ∧ r = row)) :
    (b.setTile col row t).getTile c r = b.getTile c r := by
  unfold Board.setTile Board.getTile
  by_cases hb : col < 0 ∨ (b.width : Int) ≤ col ∨ row < 0 ∨ (b.height : Int) ≤ row
  · rw [if_pos hb]
  · rw [if_neg hb]
    by_cases hc : c < 0 ∨ (b.width : Int) ≤ c ∨ r < 0 ∨ (b.height : Int) ≤ r
    · simp only [if_pos hc]
    · simp only [if_neg hc]
      rw [if_neg (by tauto)]

theorem width_setTile (b : Board) (col row : Int) (t : Option Tile) :
    (b.setTile col row t).width = b.width := by
  unfold Board.setTile; split <;> rfl

theorem height_setTile (b : Board) (col row : Int) (t : Option Tile) :
    (b.setTile col row t).height = b.height := by
  unfold Board.setTile; split <;> rfl

theorem tileTypes_setTile (b : Board) (col row : Int) (t : Option Tile) :
    (b.setTile col row t).tileTypes = b.tileTypes := by
  unfold Board.setTile; split <;> rfl

theorem inBounds_toNat {b : Board} {col row : Int} (h : b.inBounds col row) :
    col.toNat ∈ List.range b.width ∧ row.toNat ∈ List.range b.height ∧
      (col.toNat : Int) = col ∧ (row.toNat : Int) = row := by
  obtain ⟨h1, h2, h3, h4⟩ := h
  refine ⟨List.mem_range.mpr ?_, List.mem_range.mpr ?_, ?_, ?_⟩ <;> omega

theorem wellFormed_of_check {b : Board} (h : b.wfCheck = true) : b.WellFormed := by
  intro col row t hget
  have hib : b.inBounds col row :=
    inBounds_of_getTile_isSome (by rw [hget]; rfl)
  obtain ⟨hc, hr, hc', hr'⟩ := inBounds_toNat hib
  unfold Board.wfCheck at h
  rw [List.all_eq_true] at h
  have h2 := h _ hr
  rw [List.all_eq_true] at h2
  have h3 := h2 _ hc
  rw [hc', hr'] at h3
  rw [hget] at h3
  simp only [Bool.and_eq_true, decide_eq_true_eq] at h3
  exact ⟨h3.1, h3.2⟩

theorem full_of_check {b : Board} (h : b.fullCheck = true) : b.Full := by
  intro col row hib
  obtain ⟨hc, hr, hc', hr'⟩ := inBounds_toNat hib
  unfold Board.fullCheck at h
  rw [List.all_eq_true] at h
  have h2 := h _ hr
  rw [List.all_eq_true] at h2
  have h3 := h2 _ hc
  rw [hc', hr'] at h3
  exact h3

theorem getTile_setTile_none (b : Board) (col row : Int) :
    (b.setTile col row none).getTile col row = none := by
  by_cases h : b.inBounds col row
  · rw [getTile_setTile_same b col row none h]; rfl
  · rw [setTile_eq_self_of_not_inBounds b col row none h,
      getTile_eq_none_of_not_inBounds b col row h]

/-- C3: the spec says each power-up removal decrements the removed tile's
objective count (floored at 0), in particular a hammer hit on an occupied
cell with a positive remaining count.  The code clears the cell FIRST and
only then reads `board.getTile(col, row)` for the objectives update
(PowerUps.js lines 192-199), so the read always yields null and the hammer
never updates any objective: proved in general, and evaluated at the failing
input (hammer on the red tile at `(0,0)` with `objectives.red = 5`, which
stays 5 where the spec requires 4). -/
theorem c3_hammer_never_updates_objectives :
    (∀ (s : EngineState) (col row : Int) (rs : List Nat),
      (executeHammer s col row rs).1.objectives = s.objectives) ∧
    (hammerState.board.getTile 0 0).map Tile.type = some "red" ∧
    hammerState.objectives "red" = some 5 ∧
    (executeHammer hammerState 0 0 [3]).1.objectives "red" = some 5 := by
  refine ⟨fun s col row rs => ?_, by decide, by decide, by decide⟩
  simp only [executeHammer, getTile_setTile_none]

/-- C4: the spec says `matches(other)` is true iff both tiles are non-special
and share a type, and that no MatchGroup contains a special tile.  The code's
`Tile.canMatch` (Tile.js lines 207-209) never consults `isSpecial`, so two
same-type unmatched tiles compare matchable even when one is a bomb special,
and `Board.findMatches` (which compares raw `tile.type`) returns groups
containing special tiles — contradicting the repository's own test
(`tests/puzzle/Tile.test.js`: "canMatch should return false for special
tiles"). -/
theorem c4_special_tiles_do_match :
    (mkTile "red" 0 0).canMatch (some specialRedTile) = true ∧
    specialRedTile.isSpecial = true ∧
    (mkTile "red" 0 0).isMatched = false ∧ specialRedTile.isMatched = false ∧
    (∃ m ∈ specialBoard.findMatches, ∃ t ∈ m.tiles, t.isSpecial = true) := by
  decide

/-- C1: the spec says the per-iteration score gain is (total matched tiles) *
baseUnitValue + comboCounter * comboBonusValue, so a single 3-tile match with
comboCounter 0 should add `3 * 100`.  The code computes `matches.length *
100` (PuzzleEngine.js line 228), the number of match GROUPS, not tiles: the
swap below produces exactly one 3-tile group with comboCount 0 and the score
increases by 100, not 300 (the repository's own `GameConfig` names the
constant `BASE_SCORE_PER_TILE: 100`). -/
theorem c1_score_counts_groups_not_tiles :
    ((swapBoard.swapTiles 1 0 1 1).1.findMatches.map fun m => m.tiles.length)
        = [3] ∧
    swapState0.comboCount = 0 ∧ swapState0.score = 0 ∧
    (engineSwapTiles 5 swapState0 (1, 0) (1, 1) swapStream).1.score = 100 ∧
    (engineSwapTiles 5 swapState0 (1, 0) (1, 1) swapStream).1.score ≠ 3 * 100 := by
  decide

/-- C2 counterexample: the claim says the engine resets `comboCounter` to 0
on every match-producing swap, so with initial score 0 a swap making a single
3-tile group would always add `1 * 100 + 0 * 50 = 100`.  `swapTiles`
(PuzzleEngine.js lines 191-209) never touches `comboCount`: starting from a
leftover `comboCount = 2`, the one-iteration cascade adds `1 * 100 + 2 * 50 =
200`. -/
theorem c2_combo_not_reset_counterexample :
    swapState2.comboCount = 2 ∧ swapState2.score = 0 ∧
    ((swapBoard.swapTiles 1 0 1 1).1.findMatches.map fun m => m.tiles.length)
        = [3] ∧
    (engineSwapTiles 5 swapState2 (1, 0) (1, 1) swapStream).2.2 = 1 ∧
    (engineSwapTiles 5 swapState2 (1, 0) (1, 1) swapStream).1.score = 200 ∧
    (engineSwapTiles 5 swapState2 (1, 0) (1, 1) swapStream).1.score
        ≠ 1 * 100 + 0 * 50 := by
  decide

/-- C5 counterexample: the claim says `shuffle()` preserves the multiset of
tile types for every board.  When the (possibly trivial) permutation leaves a
match on the board, the trailing `removeInitialMatches()` replaces the
matched tiles with FRESH random tiles (Board.js lines 101-107): the all-red
row comes out blue, blue, green. -/
theorem c5_shuffle_changes_multiset :
    (shuffleBoard.shuffle shuffleStream).1.typesList = ["blue", "blue", "green"] ∧
    shuffleBoard.typesList = ["red", "red", "red"] ∧
    ¬ ((shuffleBoard.shuffle shuffleStream).1.typesList.Perm
        shuffleBoard.typesList) := by
  decide

/-- C7 counterexample: the claim bounds the cascade loop by `width * height`
iterations.  `fillEmptySpaces` refills every removed cell with a random tile
before the rescan, and its match-avoidance only looks left/up, so a refill
can recreate a match every iteration: on a 1x4 column (bound 4) the stream
`cascadeStream` drives five full iterations and leaves yet another match on
the board. -/
theorem c7_cascade_exceeds_bound :
    cascadeBoard.width * cascadeBoard.height = 4 ∧
    (processMatchesAux 5 cascadeState cascadeStream).2.2 = 5 ∧
    (processMatchesAux 5 cascadeState cascadeStream).1.board.findMatches.isEmpty
        = false := by
  decide

/-- C8 counterexample: the claim says every recorded MatchGroup occupies
contiguous cells with no empty cell in between, even on grids with empty
cells.  The scan's `if (!tile) continue` (Board.js lines 154-155) skips an
empty cell WITHOUT terminating the current run, so the row red, red, empty,
red is recorded as a single group at columns 0, 1, 3 spanning the empty cell
at column 2. -/
theorem c8_group_spans_empty_cell :
    (gapBoard.findMatches.map fun m => m.tiles.map Tile.col) = [[0, 1, 3]] ∧
    gapBoard.getTile 2 0 = none ∧
    ¬ (∀ m ∈ gapBoard.findMatches, contiguousCols m.tiles = true) := by
  decide

theorem processMatchesAux_invariants (fuel : Nat) :
    ∀ (s : EngineState) (rs : List Nat),
      (processMatchesAux fuel s rs).1.movesLeft = s.movesLeft ∧
      (processMatchesAux fuel s rs).1.comboCount
        = s.comboCount + ((processMatchesAux fuel s rs).2.2 : Int) := by
  induction fuel with
  | zero => intro s rs; simp [processMatchesAux]
  | succ n ih =>
      intro s rs
      simp only [processMatchesAux]
      by_cases h : s.board.findMatches.isEmpty
      · simp [h]
      · rw [if_neg h]
        dsimp only
        constructor
        · rw [(ih _ _).1]
        · rw [(ih _ _).2]
          push_cast
          ring

/-- C2 (amended): a swap that produces at least one match decrements
`moveBudget` by exactly 1, but the engine does NOT reset `comboCounter` (only
`startLevel` does): the cascade starts from the pre-swap `comboCounter` and
increments it once per iteration, so after the cascade it equals the pre-swap
value plus the iteration count. -/
theorem c2_amended (fuel : Nat) (s : EngineState) (pos1 pos2 : Int × Int)
    (rs : List Nat) (hmoves : 0 < s.movesLeft)
    (hmatch : ((s.board.swapTiles pos1.1 pos1.2 pos2.1 pos2.2).1).hasMatches = true) :
    (engineSwapTiles fuel s pos1 pos2 rs).1.movesLeft = s.movesLeft - 1 ∧
    (engineSwapTiles fuel s pos1 pos2 rs).1.comboCount
      = s.comboCount + ((engineSwapTiles fuel s pos1 pos2 rs).2.2 : Int) := by
  unfold engineSwapTiles
  rw [if_neg (by omega), if_pos hmatch]
  exact processMatchesAux_invariants fuel _ rs

/-- C2 witness: the amended statement evaluated on the concrete
`swapState2` scenario. -/
theorem c2_amended_witness :
    (engineSwapTiles 5 swapState2 (1, 0) (1, 1) swapStream).1.movesLeft
        = swapState2.movesLeft - 1 ∧
    (engineSwapTiles 5 swapState2 (1, 0) (1, 1) swapStream).1.comboCount
      = swapState2.comboCount
        + ((engineSwapTiles 5 swapState2 (1, 0) (1, 1) swapStream).2.2 : Int) :=
  c2_amended 5 swapState2 (1, 0) (1, 1) swapStream (by decide) (by decide)

theorem scanLineAux_length (get : Nat → Option Tile) :
    ∀ (idxs : List Nat) (cm : List Tile) (ct : Option String)
      (acc : List (List Tile)),
      (∀ r ∈ acc, 3 ≤ r.length) →
      ∀ r ∈ scanLineAux get idxs cm ct acc, 3 ≤ r.length := by
  intro idxs
  induction idxs with
  | nil =>
      intro cm ct acc hacc r hr
      simp only [scanLineAux] at hr
      by_cases h : 3 ≤ cm.length
      · rw [if_pos h] at hr
        rcases List.mem_append.mp hr with h1 | h1
        · exact hacc r h1
        · rw [List.mem_singleton.mp h1]; exact h
      · rw [if_neg h] at hr
        exact hacc r hr
  | cons i rest ih =>
      intro cm ct acc hacc r hr
      simp only [scanLineAux] at hr
      cases hg : get i with
      | none =>
          rw [hg] at hr
          exact ih cm ct acc hacc r hr
      | some tile =>
          rw [hg] at hr
          dsimp only at hr
          by_cases hty : some tile.type = ct
          · rw [if_pos hty] at hr
            exact ih _ ct acc hacc r hr
          · rw [if_neg hty] at hr
            refine ih _ _ _ ?_ r hr
            intro r' hr'
            by_cases h : 3 ≤ cm.length
            · rw [if_pos h] at hr'
              rcases List.mem_append.mp hr' with h1 | h1
              · exact hacc r' h1
              · rw [List.mem_singleton.mp h1]; exact h
            · rw [if_neg h] at hr'
              exact hacc r' hr'

/-- C7 (amended): every MatchGroup that the cascade loop processes has at
least 3 tiles, so every iteration that finds matches removes at least 3 tile
occurrences; the `width * height` iteration bound of the original claim does
NOT hold, because `fillEmptySpaces` refills the board before the rescan and
can recreate matches indefinitely (see the counterexample). -/
theorem c7_amended (b : Board) (m : MatchGroup) (hm : m ∈ b.findMatches) :
    3 ≤ m.tiles.length := by
  unfold Board.findMatches at hm
  rcases List.mem_append.mp hm with h | h <;>
  · obtain ⟨line, _, hmem⟩ := List.mem_flatMap.mp h
    obtain ⟨ts, hts, rfl⟩ := List.mem_map.mp hmem
    exact scanLineAux_length _ _ _ _ _ (by intro r hr; cases hr) ts hts

/-- C7 witness: the group-size bound evaluated on the recorded group of
`gapBoard`. -/
theorem c7_amended_witness :
    3 ≤ ({ orientation := "horizontal",
           tiles := [mkTile "red" 0 0, mkTile "red" 1 0, mkTile "red" 3 0],
           line := 0 } : MatchGroup).tiles.length :=
  c7_amended gapBoard _ (by decide)

theorem clearFold_none_preserved (ps : List (Tile × Int × Int)) :
    ∀ (b : Board) (c r : Int), b.getTile c r = none →
      (ps.foldl (fun bb p => bb.setTile p.2.1 p.2.2 none) b).getTile c r = none := by
  induction ps with
  | nil => intro b c r h; exact h
  | cons p rest ih =>
      intro b c r h
      rw [List.foldl_cons]
      refine ih _ c r ?_
      by_cases hp : c = p.2.1 ∧ r = p.2.2
      · rw [hp.1, hp.2]; exact getTile_setTile_none b p.2.1 p.2.2
      · rw [getTile_setTile_ne b p.2.1 p.2.2 c r none hp]; exact h

theorem clearFold_mem (ps : List (Tile × Int × Int)) :
    ∀ (b : Board) (c r : Int), (∃ p ∈ ps, p.2.1 = c ∧ p.2.2 = r) →
      (ps.foldl (fun bb p => bb.setTile p.2.1 p.2.2 none) b).getTile c r = none := by
  induction ps with
  | nil => intro b c r h; obtain ⟨p, hp, _⟩ := h; cases hp
  | cons q rest ih =>
      intro b c r h
      rw [List.foldl_cons]
      obtain ⟨p, hp, hpc, hpr⟩ := h
      rcases List.mem_cons.mp hp with rfl | hmem
      · refine clearFold_none_preserved rest _ c r ?_
        rw [← hpc, ← hpr]
        exact getTile_setTile_none b p.2.1 p.2.2
      · exact ih _ c r ⟨p, hmem, hpc, hpr⟩

theorem clearFold_not_mem (ps : List (Tile × Int × Int)) :
    ∀ (b : Board) (c r : Int), (∀ p ∈ ps, ¬ (p.2.1 = c ∧ p.2.2 = r)) →
      (ps.foldl (fun bb p => bb.setTile p.2.1 p.2.2 none) b).getTile c r
        = b.getTile c r := by
  induction ps with
  | nil => intro b c r _; rfl
  | cons q rest ih =>
      intro b c r h
      rw [List.foldl_cons, ih _ c r (fun p hp => h p (List.mem_cons_of_mem q hp))]
      refine getTile_setTile_ne b q.2.1 q.2.2 c r none ?_
      intro hcr
      exact h q (List.mem_cons_self q rest) ⟨hcr.1.symm, hcr.2.symm⟩

theorem mem_bombTargets {b : Board} {col row : Int} {p : Tile × Int × Int}
    (h : p ∈ bombTargets b col row) :
    (p.2.1 = col - 1 ∨ p.2.1 = col ∨ p.2.1 = col + 1) ∧
    (p.2.2 = row - 1 ∨ p.2.2 = row ∨ p.2.2 = row + 1) ∧
    b.getTile p.2.1 p.2.2 = some p.1 := by
  unfold bombTargets at h
  obtain ⟨r', hr', hmem⟩ := List.mem_flatMap.mp h
  obtain ⟨c', hc', heq⟩ := List.mem_filterMap.mp hmem
  cases hg : b.getTile c' r' with
  | none => rw [hg] at heq; cases heq
  | some t =>
      rw [hg] at heq
      have hp : p = (t, c', r') := (Option.some_inj.mp heq).symm
      subst hp
      simp only
      simp only [List.mem_cons, List.mem_singleton, List.not_mem_nil, or_false] at hr' hc'
      exact ⟨hc', hr', hg⟩

theorem bombTargets_mem_of {b : Board} {col row c r : Int} {t : Tile}
    (hg : b.getTile c r = some t)
    (hc : c = col - 1 ∨ c = col ∨ c = col + 1)
    (hr : r = row - 1 ∨ r = row ∨ r = row + 1) :
    (t, c, r) ∈ bombTargets b col row := by
  unfold bombTargets
  refine List.mem_flatMap.mpr ⟨r, ?_, ?_⟩
  · simp only [List.mem_cons, List.mem_singleton]; tauto
  · refine List.mem_filterMap.mpr ⟨c, ?_, ?_⟩
    · simp only [List.mem_cons, List.mem_singleton]; tauto
    · rw [hg]; rfl

/-- C10: out of bounds, `getTile` is null and `setTile` leaves the board
unchanged; consequently the bomb's removal phase empties exactly the 3x3
neighbourhood of its target (its in-bounds occupied cells; anything outside
the grid was already null) and leaves every cell outside that neighbourhood
untouched, never accessing a cell outside the grid. -/
theorem c10_bounds_and_bomb_locality :
    (∀ (b : Board) (col row : Int) (t : Option Tile), ¬ b.inBounds col row →
      b.getTile col row = none ∧ b.setTile col row t = b) ∧
    (∀ (s : EngineState) (col row c r : Int),
      ((col - 1 ≤ c ∧ c ≤ col + 1 ∧ row - 1 ≤ r ∧ r ≤ row + 1) →
        (executeBombRemove s col row).board.getTile c r = none) ∧
      (¬ (col - 1 ≤ c ∧ c ≤ col + 1 ∧ row - 1 ≤ r ∧ r ≤ row + 1) →
        (executeBombRemove s col row).board.getTile c r = s.board.getTile c r)) := by
  constructor
  · intro b col row t h
    exact ⟨getTile_eq_none_of_not_inBounds b col row h,
           setTile_eq_self_of_not_inBounds b col row t h⟩
  · intro s col row c r
    have hboard : (executeBombRemove s col row).board
        = (bombTargets s.board col row).foldl
            (fun bb p => bb.setTile p.2.1 p.2.2 none) s.board := rfl
    constructor
    · intro hin
      rw [hboard]
      cases hg : s.board.getTile c r with
      | none => exact clearFold_none_preserved _ _ c r hg
      | some t =>
          refine clearFold_mem _ _ c r ⟨(t, c, r), ?_, rfl, rfl⟩
          exact bombTargets_mem_of hg (by omega) (by omega)
    · intro hout
      rw [hboard]
      refine clearFold_not_mem _ _ c r ?_
      intro p hp hcr
      obtain ⟨hc, hr, _⟩ := mem_bombTargets hp
      rw [hcr.1, hcr.2] at *
      omega

/-- C10 witness: the bounds behaviour at `(-1, 0)` and the bomb locality on
the concrete `hammerState` board, target `(0, 0)`: the far corner `(2, 2)` is
untouched and the target cell is emptied. -/
theorem c10_witness :
    swapBoard.getTile (-1) 0 = none ∧
    swapBoard.setTile (-1) 0 none = swapBoard ∧
    (executeBombRemove hammerState 0 0).board.getTile 0 0 = none ∧
    (executeBombRemove hammerState 0 0).board.getTile 2 2
      = hammerState.board.getTile 2 2 :=
  ⟨(c10_bounds_and_bomb_locality.1 swapBoard (-1) 0 none (by decide)).1,
   (c10_bounds_and_bomb_locality.1 swapBoard (-1) 0 none (by decide)).2,
   (c10_bounds_and_bomb_locality.2 hammerState 0 0 0 0).1 (by omega),
   (c10_bounds_and_bomb_locality.2 hammerState 0 0 2 2).2 (by omega)⟩

theorem inBounds_setTile (b : Board) (col row c r : Int) (t : Option Tile) :
    (b.setTile col row t).inBounds c r ↔ b.inBounds c r := by
  unfold Board.inBounds
  rw [width_setTile, height_setTile]

theorem tile_update_update (t : Tile) (a b c d : Int) :
    ({ ({ t with col := a, row := b } : Tile) with col := c, row := d } : Tile)
      = { t with col := c, row := d } := rfl

theorem tile_update_self (t : Tile) (col row : Int) (h1 : t.col = col)
    (h2 : t.row = row) : ({ t with col := col, row := row } : Tile) = t := by
  cases t
  simp only at h1 h2
  simp [h1, h2]

theorem canSwapTiles_ne {pos1 pos2 : Int × Int} (h : canSwapTiles pos1 pos2 = true) :
    ¬ (pos1.1 = pos2.1 ∧ pos1.2 = pos2.2) := by
  unfold canSwapTiles at h
  simp only [Bool.or_eq_true, Bool.and_eq_true, decide_eq_true_eq] at h
  intro hc
  rw [hc.1, hc.2] at h
  simp at h

/-- C6: the revert round-trip.  For adjacent in-bounds positions on a fully
occupied well-formed board whose swap produces no match, the engine's
`swapTiles` performs the swap, sees no matches, swaps back, and leaves every
cell and the move budget exactly as before. -/
theorem c6_revert_round_trip (fuel : Nat) (s : EngineState)
    (pos1 pos2 : Int × Int) (rs : List Nat)
    (hwf : s.board.WellFormed) (hfull : s.board.Full)
    (hb1 : s.board.inBounds pos1.1 pos1.2) (hb2 : s.board.inBounds pos2.1 pos2.2)
    (hadj : canSwapTiles pos1 pos2 = true)
    (hnm : ((s.board.swapTiles pos1.1 pos1.2 pos2.1 pos2.2).1).hasMatches = false) :
    (∀ c r, (engineSwapTiles fuel s pos1 pos2 rs).1.board.getTile c r
        = s.board.getTile c r) ∧
    (engineSwapTiles fuel s pos1 pos2 rs).1.movesLeft = s.movesLeft := by
  have hne := canSwapTiles_ne hadj
  unfold engineSwapTiles
  by_cases hml : s.movesLeft ≤ 0
  · rw [if_pos hml]
    exact ⟨fun c r => rfl, rfl⟩
  rw [if_neg hml]
  dsimp only
  rw [hnm, if_neg Bool.false_ne_true]
  obtain ⟨t1, ht1⟩ := Option.isSome_iff_exists.mp (hfull _ _ hb1)
  obtain ⟨t2, ht2⟩ := Option.isSome_iff_exists.mp (hfull _ _ hb2)
  obtain ⟨hc1, hr1⟩ := hwf _ _ _ ht1
  obtain ⟨hc2, hr2⟩ := hwf _ _ _ ht2
  have hswap1 : (s.board.swapTiles pos1.1 pos1.2 pos2.1 pos2.2).1
      = (s.board.setTile pos1.1 pos1.2 (some t2)).setTile pos2.1 pos2.2 (some t1) := by
    unfold Board.swapTiles
    rw [ht1, ht2]
  have hg2 : ((s.board.setTile pos1.1 pos1.2 (some t2)).setTile pos2.1 pos2.2
        (some t1)).getTile pos2.1 pos2.2
      = some { t1 with col := pos2.1, row := pos2.2 } := by
    rw [getTile_setTile_same]
    · rfl
    · rw [inBounds_setTile]; exact hb2
  have hg1 : ((s.board.setTile pos1.1 pos1.2 (some t2)).setTile pos2.1 pos2.2
        (some t1)).getTile pos1.1 pos1.2
      = some { t2 with col := pos1.1, row := pos1.2 } := by
    rw [getTile_setTile_ne _ pos2.1 pos2.2 pos1.1 pos1.2 _ hne,
        getTile_setTile_same _ _ _ _ hb1]
    rfl
  have hswap2 : (((s.board.setTile pos1.1 pos1.2 (some t2)).setTile pos2.1 pos2.2
        (some t1)).swapTiles pos2.1 pos2.2 pos1.1 pos1.2).1
      = (((s.board.setTile pos1.1 pos1.2 (some t2)).setTile pos2.1 pos2.2
            (some t1)).setTile pos2.1 pos2.2
          (some { t2 with col := pos1.1, row := pos1.2 })).setTile
          pos1.1 pos1.2 (some { t1 with col := pos2.1, row := pos2.2 }) := by
    unfold Board.swapTiles
    rw [hg1, hg2]
  refine ⟨fun c r => ?_, rfl⟩
  show ((s.board.swapTiles pos1.1 pos1.2 pos2.1 pos2.2).1.swapTiles
      pos2.1 pos2.2 pos1.1 pos1.2).1.getTile c r = s.board.getTile c r
  rw [hswap1, hswap2]
  by_cases hcr1 : c = pos1.1 ∧ r = pos1.2
  · rw [hcr1.1, hcr1.2, getTile_setTile_same, ht1]
    · rw [Option.map_some', tile_update_update, tile_update_self t1 _ _ hc1 hr1]
    · rw [inBounds_setTile, inBounds_setTile, inBounds_setTile]
      exact hb1
  by_cases hcr2 : c = pos2.1 ∧ r = pos2.2
  · rw [getTile_setTile_ne _ pos1.1 pos1.2 c r _ hcr1, hcr2.1, hcr2.2,
        getTile_setTile_same, ht2]
    · rw [Option.map_some', tile_update_update, tile_update_self t2 _ _ hc2 hr2]
    · rw [inBounds_setTile, inBounds_setTile]
      exact hb2
  · rw [getTile_setTile_ne _ pos1.1 pos1.2 c r _ hcr1,
        getTile_setTile_ne _ pos2.1 pos2.2 c r _ hcr2,
        getTile_setTile_ne _ pos2.1 pos2.2 c r _ hcr2,
        getTile_setTile_ne _ pos1.1 pos1.2 c r _ hcr1]

/-- C6 witness: the revert round-trip applied to the concrete 2x2
`revertState` with the adjacent swap `(0,0)`-`(1,0)`. -/
theorem c6_witness :
    (engineSwapTiles 5 revertState (0, 0) (1, 0) []).1.board.getTile 0 0
        = revertBoard.getTile 0 0 ∧
    (engineSwapTiles 5 revertState (0, 0) (1, 0) []).1.movesLeft
        = revertState.movesLeft :=
  ⟨(c6_revert_round_trip 5 revertState (0, 0) (1, 0) []
      (wellFormed_of_check (by decide)) (full_of_check (by decide))
      (by decide) (by decide) (by decide) (by decide)).1 0 0,
   (c6_revert_round_trip 5 revertState (0, 0) (1, 0) []
      (wellFormed_of_check (by decide)) (full_of_check (by decide))
      (by decide) (by decide) (by decide) (by decide)).2⟩

theorem foldl_board_preserve {α : Type} (P : Board → Nat) (f : Board → α → Board)
    (hf : ∀ b a, P (f b a) = P b) :
    ∀ (l : List α) (b : Board), P (l.foldl f b) = P b := by
  intro l
  induction l with
  | nil => intro b; rfl
  | cons a rest ih => intro b; rw [List.foldl_cons, ih, hf]

theorem setNoneFold_none_preserved (ps : List (Int × Int)) :
    ∀ (b : Board) (c r : Int), b.getTile c r = none →
      ((ps.foldl (fun bb p => bb.setTile p.1 p.2 none) b).getTile c r) = none := by
  induction ps with
  | nil => intro b c r h; exact h
  | cons p rest ih =>
      intro b c r h
      rw [List.foldl_cons]
      refine ih _ c r ?_
      by_cases hp : c = p.1 ∧ r = p.2
      · rw [hp.1, hp.2]; exact getTile_setTile_none b p.1 p.2
      · rw [getTile_setTile_ne b p.1 p.2 c r none hp]; exact h

theorem setNoneFold_mem (ps : List (Int × Int)) :
    ∀ (b : Board) (c r : Int), (c, r) ∈ ps →
      ((ps.foldl (fun bb p => bb.setTile p.1 p.2 none) b).getTile c r) = none := by
  induction ps with
  | nil => intro b c r h; cases h
  | cons q rest ih =>
      intro b c r h
      rw [List.foldl_cons]
      rcases List.mem_cons.mp h with heq | hmem
      · refine setNoneFold_none_preserved rest _ c r ?_
        have hqc : q.1 = c ∧ q.2 = r := by rw [← heq]; exact ⟨rfl, rfl⟩
        rw [← hqc.1, ← hqc.2]
        exact getTile_setTile_none b q.1 q.2
      · exact ih _ c r hmem

theorem setNoneFold_not_mem (ps : List (Int × Int)) :
    ∀ (b : Board) (c r : Int), (∀ p ∈ ps, ¬ (p.1 = c ∧ p.2 = r)) →
      ((ps.foldl (fun bb p => bb.setTile p.1 p.2 none) b).getTile c r)
        = b.getTile c r := by
  induction ps with
  | nil => intro b c r _; rfl
  | cons q rest ih =>
      intro b c r h
      rw [List.foldl_cons, ih _ c r (fun p hp => h p (List.mem_cons_of_mem q hp))]
      exact getTile_setTile_ne b q.1 q.2 c r none
        (fun hcr => h q (List.mem_cons_self q rest) ⟨hcr.1.symm, hcr.2.symm⟩)

theorem setSomeFold_not_mem (qs : List ((Int × Int) × Tile)) :
    ∀ (b : Board) (c r : Int), (∀ q ∈ qs, ¬ (q.1.1 = c ∧ q.1.2 = r)) →
      ((qs.foldl (fun bb q => bb.setTile q.1.1 q.1.2 (some q.2)) b).getTile c r)
        = b.getTile c r := by
  induction qs with
  | nil => intro b c r _; rfl
  | cons q rest ih =>
      intro b c r h
      rw [List.foldl_cons, ih _ c r (fun p hp => h p (List.mem_cons_of_mem q hp))]
      exact getTile_setTile_ne b q.1.1 q.1.2 c r _
        (fun hcr => h q (List.mem_cons_self q rest) ⟨hcr.1.symm, hcr.2.symm⟩)

theorem setSomeFold_mem (qs : List ((Int × Int) × Tile)) :
    ∀ (b : Board) (q : (Int × Int) × Tile), q ∈ qs →
      qs.Pairwise (fun q q' => q.1 ≠ q'.1) →
      b.inBounds q.1.1 q.1.2 →
      ((qs.foldl (fun bb q => bb.setTile q.1.1 q.1.2 (some q.2)) b).getTile q.1.1 q.1.2)
        = some { q.2 with col := q.1.1, row := q.1.2 } := by
  induction qs with
  | nil => intro b q h; cases h
  | cons q0 rest ih =>
      intro b q hq hpw hbnd
      rw [List.foldl_cons]
      rcases List.mem_cons.mp hq with rfl | hmem
      · rw [setSomeFold_not_mem rest _ q.1.1 q.1.2 ?_]
        · exact getTile_setTile_same b q.1.1 q.1.2 (some q.2) hbnd
        · intro p hp hpq
          exact (List.pairwise_cons.mp hpw).1 p hp (Prod.ext hpq.1.symm hpq.2.symm)
      · refine ih _ q hmem (List.pairwise_cons.mp hpw).2 ?_
        rw [inBounds_setTile]
        exact hbnd

theorem width_dropColumn (b : Board) (col : Nat) :
    (b.dropColumn col).width = b.width := by
  unfold Board.dropColumn
  rw [foldl_board_preserve Board.width _ (fun bb a => width_setTile bb _ _ _),
      foldl_board_preserve Board.width _ (fun bb a => width_setTile bb _ _ _)]

theorem height_dropColumn (b : Board) (col : Nat) :
    (b.dropColumn col).height = b.height := by
  unfold Board.dropColumn
  rw [foldl_board_preserve Board.height _ (fun bb a => height_setTile bb _ _ _),
      foldl_board_preserve Board.height _ (fun bb a => height_setTile bb _ _ _)]

theorem clearColFold_eq (col : Nat) (rows : List Nat) (b : Board) :
    rows.foldl (fun bb (row : Nat) => bb.setTile ↑col ↑row none) b
      = (rows.map (fun (row : Nat) => ((col : Int), (row : Int)))).foldl
          (fun bb p => bb.setTile p.1 p.2 none) b := by
  rw [List.foldl_map]

theorem placeColFold_eq (col h : Nat) (ps : List (Nat × Tile)) (b : Board) :
    ps.foldl (fun bb (p : Nat × Tile) =>
        bb.setTile ↑col ((h : Int) - 1 - ↑p.1) (some p.2)) b
      = (ps.map (fun (p : Nat × Tile) =>
            (((col : Int), (h : Int) - 1 - (p.1 : Int)), p.2))).foldl
          (fun bb q => bb.setTile q.1.1 q.1.2 (some q.2)) b := by
  rw [List.foldl_map]

theorem enum_pairwise_fst_ne (l : List Tile) :
    l.enum.Pairwise (fun p p' => p.1 ≠ p'.1) := by
  have h1 : l.enum.map Prod.fst = List.range l.length := List.enum_map_fst l
  have h2 : (l.enum.map Prod.fst).Pairwise (· ≠ ·) := by
    rw [h1]; exact List.nodup_range _
  exact (List.pairwise_map.mp h2)

theorem fst_lt_of_mem_enum {l : List Tile} {p : Nat × Tile} (h : p ∈ l.enum) :
    p.1 < l.length := by
  have : p.1 ∈ l.enum.map Prod.fst := List.mem_map_of_mem Prod.fst h
  rw [List.enum_map_fst] at this
  exact List.mem_range.mp this

theorem colTiles_length_le (b : Board) (col : Nat) :
    (b.colTiles col).length ≤ b.height := by
  unfold Board.colTiles
  calc ((List.range b.height).reverse.filterMap
          fun (row : Nat) => b.getTile ↑col ↑row).length
      ≤ (List.range b.height).reverse.length := List.length_filterMap_le _ _
    _ = b.height := by rw [List.length_reverse, List.length_range]

theorem dropColumn_eq (b : Board) (col : Nat) :
    b.dropColumn col
      = (b.colTiles col).enum.foldl
          (fun bb (p : Nat × Tile) =>
            bb.setTile ↑col ((b.height : Int) - 1 - ↑p.1) (some p.2))
          ((List.range b.height).foldl
            (fun bb (row : Nat) => bb.setTile ↑col ↑row none) b) := rfl

theorem getD_eq_get {α : Type} (l : List α) (d : α) {n : Nat} (h : n < l.length) :
    l.getD n d = l.get ⟨n, h⟩ := by
  rw [List.getD_eq_getElem?_getD, List.getElem?_eq_getElem h]
  rfl

theorem dropColumn_place (b : Board) (col : Nat) (hcol : col < b.width) :
    ∀ i, i < (b.colTiles col).length →
      (b.dropColumn col).getTile ↑col ((b.height : Int) - 1 - ↑i)
        = some { (b.colTiles col).getD i dummyTile with
                   col := (col : Int), row := (b.height : Int) - 1 - ↑i } := by
  intro i hi
  rw [getD_eq_get _ _ hi]
  rw [dropColumn_eq, placeColFold_eq]
  have hlen := colTiles_length_le b col
  have hW : ((List.range b.height).foldl
      (fun bb (row : Nat) => bb.setTile ↑col ↑row none) b).width = b.width :=
    foldl_board_preserve Board.width _ (fun bb a => width_setTile bb _ _ _) _ _
  have hH : ((List.range b.height).foldl
      (fun bb (row : Nat) => bb.setTile ↑col ↑row none) b).height = b.height :=
    foldl_board_preserve Board.height _ (fun bb a => height_setTile bb _ _ _) _ _
  have hmem : ((((col : Int), (b.height : Int) - 1 - ↑i),
      (b.colTiles col).get ⟨i, hi⟩) : (Int × Int) × Tile)
      ∈ (b.colTiles col).enum.map
          (fun (p : Nat × Tile) =>
            (((col : Int), (b.height : Int) - 1 - (p.1 : Int)), p.2)) := by
    refine List.mem_map.mpr ⟨(i, (b.colTiles col).get ⟨i, hi⟩), ?_, rfl⟩
    have hlen2 : i < (b.colTiles col).enum.length := by
      rw [List.enum_length]; exact hi
    have hget : (b.colTiles col).enum.get ⟨i, hlen2⟩
        = (i, (b.colTiles col).get ⟨i, hi⟩) := by
      simp [List.getElem_enum]
    rw [← hget]
    exact List.get_mem _ _ _
  have hpw : ((b.colTiles col).enum.map
      (fun (p : Nat × Tile) =>
        (((col : Int), (b.height : Int) - 1 - (p.1 : Int)), p.2))).Pairwise
      (fun q q' => q.1 ≠ q'.1) := by
    refine List.pairwise_map.mpr ?_
    refine List.Pairwise.imp ?_ (enum_pairwise_fst_ne (b.colTiles col))
    intro p p' hne heq
    have hsnd : ((b.height : Int) - 1 - ↑p.1) = ((b.height : Int) - 1 - ↑p'.1) :=
      congrArg Prod.snd heq
    have : p.1 = p'.1 := by omega
    exact hne this
  have hbnd : ((List.range b.height).foldl
      (fun bb (row : Nat) => bb.setTile ↑col ↑row none) b).inBounds
      (col : Int) ((b.height : Int) - 1 - ↑i) := by
    unfold Board.inBounds
    rw [hW, hH]
    refine ⟨?_, ?_, ?_, ?_⟩ <;> omega
  exact setSomeFold_mem _ _ _ hmem hpw hbnd

theorem dropColumn_above (b : Board) (col : Nat) :
    ∀ r : Int, 0 ≤ r → r < (b.height : Int) - (b.colTiles col).length →
      (b.dropColumn col).getTile ↑col r = none := by
  intro r hr0 hrlt
  rw [dropColumn_eq, placeColFold_eq]
  rw [setSomeFold_not_mem]
  · rw [clearColFold_eq]
    refine setNoneFold_mem _ _ _ _ ?_
    refine List.mem_map.mpr ⟨r.toNat, ?_, ?_⟩
    · refine List.mem_range.mpr ?_
      have hlen := colTiles_length_le b col
      omega
    · have : ((r.toNat : Nat) : Int) = r := by omega
      rw [this]
  · intro q hq hcr
    obtain ⟨p, hp, rfl⟩ := List.mem_map.mp hq
    have hplt : p.1 < (b.colTiles col).length := fst_lt_of_mem_enum hp
    have : (b.height : Int) - 1 - ↑p.1 = r := hcr.2
    omega

theorem dropColumn_other (b : Board) (col : Nat) :
    ∀ (c r : Int), c ≠ (col : Int) →
      (b.dropColumn col).getTile c r = b.getTile c r := by
  intro c r hc
  rw [dropColumn_eq, placeColFold_eq, setSomeFold_not_mem, clearColFold_eq,
      setNoneFold_not_mem]
  · intro p hp hcr
    obtain ⟨row, _, rfl⟩ := List.mem_map.mp hp
    exact hc hcr.1.symm
  · intro q hq hcr
    obtain ⟨p, hp, rfl⟩ := List.mem_map.mp hq
    exact hc hcr.1.symm

theorem width_dropTiles (b : Board) : b.dropTiles.width = b.width :=
  foldl_board_preserve Board.width _ (fun bb a => width_dropColumn bb a) _ _

theorem height_dropTiles (b : Board) : b.dropTiles.height = b.height :=
  foldl_board_preserve Board.height _ (fun bb a => height_dropColumn bb a) _ _

theorem dropColumn_congr (b1 b2 : Board) (c : Nat)
    (hW : b1.width = b2.width) (hH : b1.height = b2.height)
    (hcol : ∀ r : Int, b1.getTile ↑c r = b2.getTile ↑c r) (hc : c < b1.width) :
    ∀ r : Int, (b1.dropColumn c).getTile ↑c r = (b2.dropColumn c).getTile ↑c r := by
  have hts : b1.colTiles c = b2.colTiles c := by
    unfold Board.colTiles
    rw [← hH]
    exact List.filterMap_congr fun a _ => hcol ↑a
  intro r
  by_cases hb0 : 0 ≤ r
  case neg =>
    rw [getTile_eq_none_of_not_inBounds, getTile_eq_none_of_not_inBounds] <;>
    · intro hib
      obtain ⟨_, _, h3, _⟩ := hib
      omega
  by_cases hbh : r < (b1.height : Int)
  case neg =>
    rw [getTile_eq_none_of_not_inBounds, getTile_eq_none_of_not_inBounds]
    · intro hib
      obtain ⟨_, _, _, h4⟩ := hib
      rw [height_dropColumn, ← hH] at h4
      omega
    · intro hib
      obtain ⟨_, _, _, h4⟩ := hib
      rw [height_dropColumn] at h4
      omega
  by_cases hup : r < (b1.height : Int) - (b1.colTiles c).length
  · have hup2 : r < (b2.height : Int) - (b2.colTiles c).length := by
      rw [← hH, ← hts]; exact hup
    rw [dropColumn_above b1 c r hb0 hup, dropColumn_above b2 c r hb0 hup2]
  · have hi : ((b1.height : Int) - 1 - r).toNat < (b1.colTiles c).length := by
      omega
    have hr : r = (b1.height : Int) - 1 - ↑(((b1.height : Int) - 1 - r).toNat) := by
      omega
    have hi2 : ((b1.height : Int) - 1 - r).toNat < (b2.colTiles c).length := by
      rw [← hts]; exact hi
    have hc2 : c < b2.width := by rw [← hW]; exact hc
    rw [hr, dropColumn_place b1 c hc _ hi]
    have hr2 : (b1.height : Int) - 1 - ↑(((b1.height : Int) - 1 - r).toNat)
        = (b2.height : Int) - 1 - ↑(((b1.height : Int) - 1 - r).toNat) := by
      rw [← hH]
    rw [hr2, dropColumn_place b2 c hc2 _ hi2, hts, ← hH]

theorem foldl_dropColumn_spec :
    ∀ (cols : List Nat) (b0 : Board),
      cols.Pairwise (· ≠ ·) → (∀ c ∈ cols, c < b0.width) →
      (∀ c ∈ cols, ∀ r : Int,
        (cols.foldl (fun bb cc => bb.dropColumn cc) b0).getTile ↑c r
          = (b0.dropColumn c).getTile ↑c r) ∧
      (∀ (x r : Int), (∀ c ∈ cols, (c : Int) ≠ x) →
        (cols.foldl (fun bb cc => bb.dropColumn cc) b0).getTile x r
          = b0.getTile x r) := by
  intro cols
  induction cols with
  | nil =>
      intro b0 _ _
      refine ⟨?_, ?_⟩
      · intro c hc; cases hc
      · intro x r _; rfl
  | cons c0 rest ih =>
      intro b0 hpw hwidth
      have hW0 := width_dropColumn b0 c0
      have hH0 := height_dropColumn b0 c0
      have hne0 := (List.pairwise_cons.mp hpw).1
      have hwidth' : ∀ c ∈ rest, c < (b0.dropColumn c0).width := by
        rw [hW0]
        exact fun c hc => hwidth c (List.mem_cons_of_mem c0 hc)
      obtain ⟨ih1, ih2⟩ :=
        ih (b0.dropColumn c0) (List.pairwise_cons.mp hpw).2 hwidth'
      constructor
      · intro c hc r
        rw [List.foldl_cons]
        rcases List.mem_cons.mp hc with rfl | hcr
        · refine ih2 ↑c r ?_
          intro c' hc' heq
          exact hne0 c' hc' (by omega)
        · rw [ih1 c hcr r]
          refine dropColumn_congr (b0.dropColumn c0) b0 c hW0 hH0 ?_ (hwidth' c hcr) r
          intro rr
          refine dropColumn_other b0 c0 ↑c rr ?_
          intro heq
          exact hne0 c hcr (by omega)
      · intro x r hx
        rw [List.foldl_cons,
            ih2 x r (fun c hc => hx c (List.mem_cons_of_mem c0 hc))]
        exact dropColumn_other b0 c0 x r (hx c0 (List.mem_cons_self c0 rest)).symm

/-- C9: gravity order preservation.  For every column `col`, reading the
column bottom-to-top before the drop gives `colTiles`; after `dropTiles` the
`i`-th of those survivors (counting from the bottom) occupies the `i`-th cell
from the bottom of the same column (its coordinate fields updated to that
cell, everything else unchanged), every cell above the surviving block is
empty, and any column not in `[0, width)` is untouched — so no tile moves to
a different column and no tile passes another in its column. -/
theorem c9_gravity_order (b : Board) (col : Nat) (hcol : col < b.width) :
    (∀ i, i < (b.colTiles col).length →
      b.dropTiles.getTile ↑col ((b.height : Int) - 1 - ↑i)
        = some { (b.colTiles col).getD i dummyTile with
                   col := (col : Int), row := (b.height : Int) - 1 - ↑i }) ∧
    (∀ r : Int, 0 ≤ r → r < (b.height : Int) - (b.colTiles col).length →
      b.dropTiles.getTile ↑col r = none) ∧
    (∀ (x r : Int), (∀ c : Nat, c < b.width → (c : Int) ≠ x) →
      b.dropTiles.getTile x r = b.getTile x r) := by
  have hspec := foldl_dropColumn_spec (List.range b.width) b
    (List.nodup_range b.width) (fun c hc => List.mem_range.mp hc)
  have hdrop : b.dropTiles
      = (List.range b.width).foldl (fun bb cc => bb.dropColumn cc) b := rfl
  refine ⟨?_, ?_, ?_⟩
  · intro i hi
    rw [hdrop, hspec.1 col (List.mem_range.mpr hcol) _]
    exact dropColumn_place b col hcol i hi
  · intro r hr0 hrlt
    rw [hdrop, hspec.1 col (List.mem_range.mpr hcol) _]
    exact dropColumn_above b col r hr0 hrlt
  · intro x r hx
    rw [hdrop]
    exact hspec.2 x r (fun c hc => hx c (List.mem_range.mp hc))

/-- C9 witness: gravity on the single-column board red, hole, green: the
green tile stays at the bottom, the red tile falls onto it, and the top cell
is empty. -/
theorem c9_witness :
    gravityBoard.dropTiles.getTile 0 2 = some (mkTile "green" 0 2) ∧
    gravityBoard.dropTiles.getTile 0 1 = some (mkTile "red" 0 1) ∧
    gravityBoard.dropTiles.getTile 0 0 = none :=
  ⟨(c9_gravity_order gravityBoard 0 (by decide)).1 0 (by decide),
   (c9_gravity_order gravityBoard 0 (by decide)).1 1 (by decide),
   (c9_gravity_order gravityBoard 0 (by decide)).2.1 0 (by decide) (by decide)⟩

theorem cons_set_perm {α : Type} (d x : α) (t : List α) (m : Nat)
    (hm : m < t.length) : (t.getD m d :: t.set m x).Perm (x :: t) := by
  rw [List.set_eq_take_cons_drop x hm, getD_eq_get t d hm]
  have ht : t = t.take m ++ t.get ⟨m, hm⟩ :: t.drop (m + 1) := by
    conv_lhs => rw [← List.take_append_drop m t]
    rw [List.drop_eq_getElem_cons hm]
    rfl
  refine List.Perm.trans (List.Perm.cons _ List.perm_middle) ?_
  refine List.Perm.trans (List.Perm.swap x _ _) ?_
  refine List.Perm.trans (List.Perm.cons x List.perm_middle.symm) ?_
  rw [← ht]

theorem set_set_perm {α : Type} (d : α) :
    ∀ (l : List α) (i j : Nat), i < l.length → j < l.length →
      ((l.set i (l.getD j d)).set j (l.getD i d)).Perm l := by
  intro l
  induction l with
  | nil => intro i j hi _; exact absurd hi (Nat.not_lt_zero i)
  | cons x t ih =>
      intro i j hi hj
      match i, j with
      | 0, 0 => simp
      | 0, m + 1 =>
          rw [List.set_cons_zero, List.set_cons_succ]
          exact cons_set_perm d x t m (by simpa using hj)
      | n + 1, 0 =>
          rw [List.set_cons_succ, List.set_cons_zero]
          exact cons_set_perm d x t n (by simpa using hi)
      | n + 1, m + 1 =>
          rw [List.set_cons_succ, List.set_cons_succ]
          exact List.Perm.cons x (ih n m (by simpa using hi) (by simpa using hj))

theorem swapAt_perm (l : List Tile) (i j : Nat) (hi : i < l.length)
    (hj : j < l.length) : (swapAt l i j).Perm l :=
  set_set_perm _ l i j hi hj

theorem fyFold_perm (l0 : List Tile) :
    ∀ (idxs : List Nat) (p : List Tile × List Nat),
      p.1.Perm l0 → (∀ i ∈ idxs, i < l0.length) →
      ((idxs.foldl
        (fun (acc : List Tile × List Nat) i =>
          match acc.2 with
          | [] => (swapAt acc.1 i 0, [])
          | r :: rest => (swapAt acc.1 i (r % (i + 1)), rest)) p).1).Perm l0 := by
  intro idxs
  induction idxs with
  | nil => intro p hp _; exact hp
  | cons i rest ih =>
      intro p hp hbnd
      rw [List.foldl_cons]
      have hi : i < p.1.length := by
        rw [hp.length_eq]
        exact hbnd i (List.mem_cons_self i rest)
      have hrest : ∀ k ∈ rest, k < l0.length :=
        fun k hk => hbnd k (List.mem_cons_of_mem i hk)
      cases hp2 : p.2 with
      | nil =>
          refine ih _ ?_ hrest
          exact (swapAt_perm p.1 i 0 hi (by omega)).trans hp
      | cons r rs' =>
          refine ih _ ?_ hrest
          exact (swapAt_perm p.1 i (r % (i + 1)) hi
            (lt_of_le_of_lt (Nat.le_of_lt_succ (Nat.mod_lt r (Nat.succ_pos i))) hi)).trans hp

theorem fisherYates_perm (l : List Tile) (rs : List Nat) :
    ((fisherYates l rs).1).Perm l := by
  refine fyFold_perm l _ (l, rs) (List.Perm.refl l) ?_
  intro i hi
  have h1 : i ∈ (List.range l.length).reverse := List.dropLast_subset _ hi
  exact List.mem_range.mp (List.mem_reverse.mp h1)

theorem collectTiles_eq (b : Board) :
    b.collectTiles = (allPositions b.width b.height).filterMap
      (fun (p : Nat × Nat) => b.getTile ↑p.1 ↑p.2) := by
  unfold Board.collectTiles allPositions
  rw [List.filterMap_flatMap]
  congr 1
  funext row
  rw [List.filterMap_map]
  rfl

theorem typesList_eq (b : Board) :
    b.typesList = b.collectTiles.map Tile.type := by
  rw [collectTiles_eq]
  unfold Board.typesList
  rw [List.map_filterMap]

theorem collectTiles_length (b : Board) :
    b.collectTiles.length = (allPositions b.width b.height).countP
      (fun (p : Nat × Nat) => (b.getTile ↑p.1 ↑p.2).isSome) := by
  rw [collectTiles_eq, List.length_filterMap_eq_countP]

theorem mem_allPositions {w h : Nat} {p : Nat × Nat} :
    p ∈ allPositions w h ↔ p.1 < w ∧ p.2 < h := by
  unfold allPositions
  constructor
  · intro hp
    obtain ⟨row, hrow, hmem⟩ := List.mem_flatMap.mp hp
    obtain ⟨col, hcol, rfl⟩ := List.mem_map.mp hmem
    exact ⟨List.mem_range.mp hcol, List.mem_range.mp hrow⟩
  · intro ⟨h1, h2⟩
    refine List.mem_flatMap.mpr ⟨p.2, List.mem_range.mpr h2, ?_⟩
    exact List.mem_map.mpr ⟨p.1, List.mem_range.mpr h1, rfl⟩

theorem allPositions_pairwise (w : Nat) :
    ∀ h : Nat, (allPositions w h).Pairwise (· ≠ ·) := by
  intro h
  induction h with
  | zero => exact List.Pairwise.nil
  | succ n ih =>
      have hsplit : allPositions w (n + 1)
          = allPositions w n ++ (List.range w).map (fun col => (col, n)) := by
        unfold allPositions
        rw [List.range_succ, List.flatMap_append, List.flatMap_cons,
            List.flatMap_nil, List.append_nil]
      rw [hsplit, List.pairwise_append]
      refine ⟨ih, ?_, ?_⟩
      · refine List.pairwise_map.mpr ?_
        refine List.Pairwise.imp ?_ (List.nodup_range w)
        intro a b hab heq
        exact hab (congrArg Prod.fst heq)
      · intro a ha b hb heq
        have h1 : a.2 < n := (mem_allPositions.mp ha).2
        obtain ⟨col, _, rfl⟩ := List.mem_map.mp hb
        rw [heq] at h1
        exact absurd h1 (lt_irrefl n)

theorem place_spec :
    ∀ (ps : List (Nat × Nat)) (b : Board) (ts : List Tile),
      ps.Pairwise (· ≠ ·) →
      ts.length = ps.countP (fun (p : Nat × Nat) => (b.getTile ↑p.1 ↑p.2).isSome) →
      typesAt (Board.placeShuffledAux ps b ts) ps = ts.map Tile.type ∧
      (∀ (c r : Int), (∀ p ∈ ps, ¬ (((p.1 : Nat) : Int) = c ∧ ((p.2 : Nat) : Int) = r)) →
        (Board.placeShuffledAux ps b ts).getTile c r = b.getTile c r) ∧
      (Board.placeShuffledAux ps b ts).width = b.width ∧
      (Board.placeShuffledAux ps b ts).height = b.height := by
  intro ps
  induction ps with
  | nil =>
      intro b ts _ hlen
      have hts : ts = [] := List.length_eq_zero.mp (by simpa using hlen)
      subst hts
      exact ⟨rfl, fun c r _ => rfl, rfl, rfl⟩
  | cons p ps' ih =>
      intro b ts hpw hlen
      obtain ⟨col, row⟩ := p
      have hpw' := (List.pairwise_cons.mp hpw).2
      have hne := (List.pairwise_cons.mp hpw).1
      by_cases hocc : (b.getTile ↑col ↑row).isSome
      · rw [List.countP_cons_of_pos _ _ (by exact hocc)] at hlen
        cases ts with
        | nil => exact absurd hlen.symm (Nat.succ_ne_zero _)
        | cons t ts' =>
            have hstep : Board.placeShuffledAux ((col, row) :: ps') b (t :: ts')
                = Board.placeShuffledAux ps' (b.setTile ↑col ↑row (some t)) ts' := by
              simp only [Board.placeShuffledAux, if_pos hocc]
            rw [hstep]
            have hcnt' : ts'.length = ps'.countP
                (fun (q : Nat × Nat) =>
                  ((b.setTile ↑col ↑row (some t)).getTile ↑q.1 ↑q.2).isSome) := by
              have hcongr : ps'.countP
                  (fun (q : Nat × Nat) =>
                    ((b.setTile ↑col ↑row (some t)).getTile ↑q.1 ↑q.2).isSome)
                  = ps'.countP
                    (fun (q : Nat × Nat) => (b.getTile ↑q.1 ↑q.2).isSome) := by
                refine List.countP_congr ?_
                intro q hq
                have hgq : (b.setTile ↑col ↑row (some t)).getTile ↑q.1 ↑q.2
                    = b.getTile ↑q.1 ↑q.2 := by
                  refine getTile_setTile_ne b ↑col ↑row ↑q.1 ↑q.2 _ ?_
                  intro hcr
                  refine hne q hq ?_
                  have h1 : col = q.1 := by omega
                  have h2 : row = q.2 := by omega
                  rw [Prod.ext_iff]
                  exact ⟨h1, h2⟩
                rw [hgq]
              rw [hcongr]
              rw [List.length_cons] at hlen
              omega
            obtain ⟨ih1, ih2, ihw, ihh⟩ :=
              ih (b.setTile ↑col ↑row (some t)) ts' hpw' hcnt'
            have hbnd : b.inBounds ↑col ↑row := inBounds_of_getTile_isSome hocc
            have hgp : (Board.placeShuffledAux ps'
                (b.setTile ↑col ↑row (some t)) ts').getTile ↑col ↑row
                = some { t with col := (col : Int), row := (row : Int) } := by
              rw [ih2 ↑col ↑row ?_]
              · rw [getTile_setTile_same b ↑col ↑row (some t) hbnd]
                rfl
              · intro q hq hcr
                refine hne q hq ?_
                have h1 : col = q.1 := by omega
                have h2 : row = q.2 := by omega
                rw [Prod.ext_iff]
                exact ⟨h1, h2⟩
            refine ⟨?_, ?_, ?_, ?_⟩
            · show typesAt _ ((col, row) :: ps') = (t :: ts').map Tile.type
              unfold typesAt
              rw [List.filterMap_cons]
              dsimp only
              rw [hgp]
              dsimp only [Option.map]
              rw [List.map_cons]
              exact congrArg (fun l => t.type :: l) ih1
            · intro c r hcr
              rw [ih2 c r (fun q hq => hcr q (List.mem_cons_of_mem _ hq))]
              refine getTile_setTile_ne b ↑col ↑row c r _ ?_
              intro h
              exact hcr (col, row) (List.mem_cons_self _ _) ⟨h.1.symm, h.2.symm⟩
            · rw [ihw, width_setTile]
            · rw [ihh, height_setTile]
      · rw [List.countP_cons_of_neg _ _ (by exact hocc)] at hlen
        have hstep : Board.placeShuffledAux ((col, row) :: ps') b ts
            = Board.placeShuffledAux ps' b ts := by
          simp only [Board.placeShuffledAux, if_neg hocc]
        rw [hstep]
        obtain ⟨ih1, ih2, ihw, ihh⟩ := ih b ts hpw' hlen
        refine ⟨?_, ?_, ihw, ihh⟩
        · show typesAt _ ((col, row) :: ps') = ts.map Tile.type
          unfold typesAt
          rw [List.filterMap_cons]
          dsimp only
          have hnone : (Board.placeShuffledAux ps' b ts).getTile ↑col ↑row = none := by
            rw [ih2 ↑col ↑row ?_]
            · exact Option.not_isSome_iff_eq_none.mp hocc
            · intro q hq hcr
              refine hne q hq ?_
              have h1 : col = q.1 := by omega
              have h2 : row = q.2 := by omega
              rw [Prod.ext_iff]
              exact ⟨h1, h2⟩
          rw [hnone]
          exact ih1
        · intro c r hcr
          exact ih2 c r (fun q hq => hcr q (List.mem_cons_of_mem _ hq))

theorem removeInitialMatches_of_no_matches {b : Board} (h : b.findMatches = [])
    (rs : List Nat) : b.removeInitialMatches rs = (b, rs) := by
  show Board.removeInitialMatchesAux 100 b rs = (b, rs)
  rw [show (100 : Nat) = 99 + 1 from rfl]
  simp [Board.removeInitialMatchesAux, h]

/-- C5 (amended): `shuffle()`'s permutation phase preserves the multiset of
tile types (the Fisher-Yates pass permutes the collected tiles and the
placement writes them back into exactly the occupied cells, in order); when
the permuted placement contains no match, the trailing
`removeInitialMatches()` changes nothing, so the whole of `shuffle()`
preserves the multiset and leaves `findMatches()` empty.  (When the permuted
placement DOES contain a match, the clearing pass replaces tiles and the
multiset can change — see the counterexample.) -/
theorem c5_amended (b : Board) (rs : List Nat)
    (hq : (b.permutePhase rs).1.findMatches = []) :
    ((b.shuffle rs).1.typesList).Perm b.typesList ∧
    (b.shuffle rs).1.findMatches = [] := by
  have hshuffle : b.shuffle rs
      = (b.permutePhase rs).1.removeInitialMatches (b.permutePhase rs).2 := rfl
  rw [hshuffle, removeInitialMatches_of_no_matches hq]
  refine ⟨?_, hq⟩
  have hperm1 : ((fisherYates b.collectTiles rs).1).Perm b.collectTiles :=
    fisherYates_perm b.collectTiles rs
  have hlen : ((fisherYates b.collectTiles rs).1).length
      = (allPositions b.width b.height).countP
        (fun (p : Nat × Nat) => (b.getTile ↑p.1 ↑p.2).isSome) := by
    rw [hperm1.length_eq, collectTiles_length]
  obtain ⟨h1, _, hw, hh⟩ := place_spec (allPositions b.width b.height) b
    (fisherYates b.collectTiles rs).1 (allPositions_pairwise b.width b.height) hlen
  have hty : (b.permutePhase rs).1.typesList
      = ((fisherYates b.collectTiles rs).1).map Tile.type := by
    have hplaced : (b.permutePhase rs).1
        = Board.placeShuffledAux (allPositions b.width b.height) b
            (fisherYates b.collectTiles rs).1 := rfl
    rw [hplaced]
    have htat : (Board.placeShuffledAux (allPositions b.width b.height) b
        (fisherYates b.collectTiles rs).1).typesList
        = typesAt (Board.placeShuffledAux (allPositions b.width b.height) b
            (fisherYates b.collectTiles rs).1) (allPositions b.width b.height) := by
      unfold Board.typesList typesAt
      rw [hw, hh]
    rw [htat, h1]
  rw [hty, typesList_eq]
  exact hperm1.map Tile.type

/-- C5 witness: shuffling the quiescent red-green-red row with stream
`[0, 0]` permutes it to green-red-red (no match), so the multiset is
preserved and the board stays match-free. -/
theorem c5_amended_witness :
    ((shuffleWitnessBoard.shuffle [0, 0]).1.typesList).Perm
      shuffleWitnessBoard.typesList ∧
    (shuffleWitnessBoard.shuffle [0, 0]).1.findMatches = [] :=
  c5_amended shuffleWitnessBoard [0, 0] (by decide)

theorem RunEnd.last_mem {get : Nat → Option Tile} {ty : String} {ts : List Tile}
    {i : Nat} (h : RunEnd get ty ts i) :
    ∃ t, ts.getLast? = some t ∧ get i = some t := by
  induction h with
  | single i t hget hty => exact ⟨t, rfl, hget⟩
  | snoc ts i j t prev hij hgap hget hty ih =>
      exact ⟨t, List.getLast?_concat ts, hget⟩

theorem RunEnd.mem_props {get : Nat → Option Tile} {ty : String} {ts : List Tile}
    {i : Nat} (h : RunEnd get ty ts i) :
    ∀ t ∈ ts, t.type = ty ∧ ∃ j, j ≤ i ∧ get j = some t := by
  induction h with
  | single i t hget hty =>
      intro t' ht'
      rw [List.mem_singleton] at ht'
      subst ht'
      exact ⟨hty, i, le_refl i, hget⟩
  | snoc ts i j t prev hij hgap hget hty ih =>
      intro t' ht'
      rcases List.mem_append.mp ht' with h1 | h1
      · obtain ⟨hty', j', hj', hget'⟩ := ih t' h1
        exact ⟨hty', j', le_trans hj' (le_of_lt hij), hget'⟩
      · rw [List.mem_singleton] at h1
        subst h1
        exact ⟨hty, j, le_refl j, hget⟩

theorem RunEnd.chain {get : Nat → Option Tile} (pos : Tile → Int)
    (H : ∀ (j : Nat) (t : Tile), get j = some t → pos t = (j : Int))
    {ty : String} {ts : List Tile} {i : Nat} (h : RunEnd get ty ts i) :
    ts.Chain' (fun a a' => 0 ≤ pos a ∧ pos a < pos a' ∧
      ∀ x : Int, pos a < x → x < pos a' → get x.toNat = none) := by
  induction h with
  | single i t hget hty => exact List.chain'_singleton t
  | snoc ts i j t prev hij hgap hget hty ih =>
      refine List.Chain'.append ih (List.chain'_singleton t) ?_
      intro x hx y hy
      obtain ⟨tl, hlast, hgetl⟩ := prev.last_mem
      have hx' : x = tl := by
        rw [hlast] at hx
        exact (Option.mem_some_iff.mp hx).symm
      have hy' : y = t := by
        have := hy
        simp only [List.head?_cons, Option.mem_some_iff] at this
        exact this.symm
      subst hx'
      subst hy'
      refine ⟨?_, ?_, ?_⟩
      · rw [H i x hgetl]; omega
      · rw [H i x hgetl, H j y hget]
        exact_mod_cast hij
      · intro z hz1 hz2
        rw [H i x hgetl] at hz1
        rw [H j y hget] at hz2
        have h1 : i < z.toNat := by omega
        have h2 : z.toNat < j := by omega
        exact hgap z.toNat h1 h2

theorem scanLineAux_closed (get : Nat → Option Tile) :
    ∀ (n k : Nat) (cm : List Tile) (ct : Option String)
      (acc : List (List Tile)),
      ScanInv get cm ct k → (∀ r ∈ acc, ClosedRun get r) →
      ∀ r ∈ scanLineAux get (List.range' k n) cm ct acc, ClosedRun get r := by
  intro n
  induction n with
  | zero =>
      intro k cm ct acc hinv hacc r hr
      simp only [List.range'] at hr
      simp only [scanLineAux] at hr
      by_cases h : 3 ≤ cm.length
      · rw [if_pos h] at hr
        rcases List.mem_append.mp hr with h1 | h1
        · exact hacc r h1
        · rw [List.mem_singleton.mp h1]
          refine ⟨h, ?_⟩
          rcases hinv with ⟨hcm, _⟩ | ⟨ty, i, _, hrun, _, _⟩
          · rw [hcm] at h; simp at h
          · exact ⟨ty, i, hrun⟩
      · rw [if_neg h] at hr
        exact hacc r hr
  | succ n ih =>
      intro k cm ct acc hinv hacc r hr
      rw [List.range'_succ] at hr
      simp only [scanLineAux] at hr
      cases hg : get k with
      | none =>
          rw [hg] at hr
          refine ih (k + 1) cm ct acc ?_ hacc r hr
          rcases hinv with ⟨hcm, hct⟩ | ⟨ty, i, hct, hrun, hik, hgap⟩
          · exact Or.inl ⟨hcm, hct⟩
          · refine Or.inr ⟨ty, i, hct, hrun, by omega, ?_⟩
            intro m hm1 hm2
            by_cases hmk : m = k
            · rw [hmk]; exact hg
            · exact hgap m hm1 (by omega)
      | some tile =>
          rw [hg] at hr
          dsimp only at hr
          by_cases hty : some tile.type = ct
          · rw [if_pos hty] at hr
            rcases hinv with ⟨hcm, hct⟩ | ⟨ty, i, hct, hrun, hik, hgap⟩
            · rw [hct] at hty; cases hty
            · refine ih (k + 1) (cm ++ [tile]) ct acc ?_ hacc r hr
              refine Or.inr ⟨ty, k, hct, ?_, by omega, by omega⟩
              refine RunEnd.snoc cm i k tile hrun hik hgap hg ?_
              rw [hct] at hty
              exact Option.some_inj.mp hty
          · rw [if_neg hty] at hr
            refine ih (k + 1) [tile] (some tile.type) _ ?_ ?_ r hr
            · refine Or.inr ⟨tile.type, k, rfl, ?_, by omega, by omega⟩
              exact RunEnd.single k tile hg rfl
            · intro r' hr'
              by_cases h3 : 3 ≤ cm.length
              · rw [if_pos h3] at hr'
                rcases List.mem_append.mp hr' with h1 | h1
                · exact hacc r' h1
                · rw [List.mem_singleton.mp h1]
                  refine ⟨h3, ?_⟩
                  rcases hinv with ⟨hcm, _⟩ | ⟨ty, i, _, hrun, _, _⟩
                  · rw [hcm] at h3; simp at h3
                  · exact ⟨ty, i, hrun⟩
              · rw [if_neg h3] at hr'
                exact hacc r' hr'

/-- C8 (amended): in `findMatches` a run extends across consecutive OCCUPIED
cells of one line and terminates at a type change or the line end; an empty
cell is skipped by `if (!tile) continue` without breaking the run.  Hence on
a well-formed board every recorded MatchGroup has at least 3 tiles of one
type sitting on its line at strictly increasing positions, and every cell
strictly between two consecutive members is empty — the tiles are contiguous
exactly when no empty cell separates them. -/
theorem c8_amended (b : Board) (hwf : b.WellFormed) (m : MatchGroup)
    (hm : m ∈ b.findMatches) :
    3 ≤ m.tiles.length ∧
    (∀ t ∈ m.tiles, ∀ t' ∈ m.tiles, t.type = t'.type) ∧
    (m.orientation = "horizontal" →
      (∀ t ∈ m.tiles, t.row = (m.line : Int) ∧ b.getTile t.col ↑m.line = some t) ∧
      m.tiles.Chain' (fun a a' => a.col < a'.col ∧
        ∀ x : Int, a.col < x → x < a'.col → b.getTile x ↑m.line = none)) ∧
    (m.orientation = "vertical" →
      (∀ t ∈ m.tiles, t.col = (m.line : Int) ∧ b.getTile ↑m.line t.row = some t) ∧
      m.tiles.Chain' (fun a a' => a.row < a'.row ∧
        ∀ x : Int, a.row < x → x < a'.row → b.getTile ↑m.line x = none)) := by
  unfold Board.findMatches at hm
  rcases List.mem_append.mp hm with hside | hside
  · obtain ⟨row, hrow, hmem⟩ := List.mem_flatMap.mp hside
    obtain ⟨ts, hts, rfl⟩ := List.mem_map.mp hmem
    rw [List.range_eq_range'] at hts
    have hclosed : ClosedRun (fun col : Nat => b.getTile ↑col ↑row) ts :=
      scanLineAux_closed _ b.width 0 [] none [] (Or.inl ⟨rfl, rfl⟩)
        (fun r hr => absurd hr (List.not_mem_nil r)) ts hts
    obtain ⟨hlen, ty, i, hrun⟩ := hclosed
    have H : ∀ (j : Nat) (t : Tile), b.getTile ↑j ↑row = some t →
        t.col = (j : Int) ∧ t.row = (row : Int) :=
      fun j t hj => hwf ↑j ↑row t hj
    have hmem2 := hrun.mem_props
    refine ⟨hlen, ?_, ?_, ?_⟩
    · intro t ht t' ht'
      rw [(hmem2 t ht).1, (hmem2 t' ht').1]
    · intro _
      constructor
      · intro t ht
        obtain ⟨_, j, _, hget⟩ := hmem2 t ht
        obtain ⟨hc, hr⟩ := H j t hget
        refine ⟨hr, ?_⟩
        rw [hc]
        exact hget
      · have hchain := hrun.chain Tile.col (fun j t hj => (H j t hj).1)
        refine List.Chain'.imp ?_ hchain
        intro a a' ⟨h0, hlt, hgap⟩
        refine ⟨hlt, ?_⟩
        intro x hx1 hx2
        have hx0 : 0 ≤ x := le_trans h0 (le_of_lt hx1)
        have hxt : x = ((x.toNat : Nat) : Int) := by omega
        rw [hxt]
        exact hgap x hx1 hx2
    · intro habs
      have hstr : ("horizontal" : String) = "vertical" := habs
      exact absurd hstr (by decide)
  · obtain ⟨col, hcol, hmem⟩ := List.mem_flatMap.mp hside
    obtain ⟨ts, hts, rfl⟩ := List.mem_map.mp hmem
    rw [List.range_eq_range'] at hts
    have hclosed : ClosedRun (fun row : Nat => b.getTile ↑col ↑row) ts :=
      scanLineAux_closed _ b.height 0 [] none [] (Or.inl ⟨rfl, rfl⟩)
        (fun r hr => absurd hr (List.not_mem_nil r)) ts hts
    obtain ⟨hlen, ty, i, hrun⟩ := hclosed
    have H : ∀ (j : Nat) (t : Tile), b.getTile ↑col ↑j = some t →
        t.col = (col : Int) ∧ t.row = (j : Int) :=
      fun j t hj => hwf ↑col ↑j t hj
    have hmem2 := hrun.mem_props
    refine ⟨hlen, ?_, ?_, ?_⟩
    · intro t ht t' ht'
      rw [(hmem2 t ht).1, (hmem2 t' ht').1]
    · intro habs
      have hstr : ("vertical" : String) = "horizontal" := habs
      exact absurd hstr (by decide)
    · intro _
      constructor
      · intro t ht
        obtain ⟨_, j, _, hget⟩ := hmem2 t ht
        obtain ⟨hc, hr⟩ := H j t hget
        refine ⟨hc, ?_⟩
        rw [hr]
        exact hget
      · have hchain := hrun.chain Tile.row (fun j t hj => (H j t hj).2)
        refine List.Chain'.imp ?_ hchain
        intro a a' ⟨h0, hlt, hgap⟩
        refine ⟨hlt, ?_⟩
        intro x hx1 hx2
        have hx0 : 0 ≤ x := le_trans h0 (le_of_lt hx1)
        have hxt : x = ((x.toNat : Nat) : Int) := by omega
        rw [hxt]
        exact hgap x hx1 hx2

/-- C8 witness: the amended statement applied to the recorded group of
`gapBoard` (red, red, empty, red): the theorem yields that the cell strictly
between the second and third member — column 2 — is empty, and that each
member is fetched back by `getTile` at its own column. -/
theorem c8_amended_witness :
    gapBoard.getTile 2 0 = none ∧
    gapBoard.getTile 0 0 = some (mkTile "red" 0 0) := by
  have h := c8_amended gapBoard (wellFormed_of_check (by decide))
    { orientation := "horizontal",
      tiles := [mkTile "red" 0 0, mkTile "red" 1 0, mkTile "red" 3 0],
      line := 0 } (by decide)
  have hchain := (h.2.2.1 rfl).2
  rw [List.chain'_cons, List.chain'_cons] at hchain
  constructor
  · exact hchain.2.1.2 2 (by decide) (by decide)
  · exact ((h.2.2.1 rfl).1 (mkTile "red" 0 0) (by decide)).2

end Match3
